import Mathlib

/-!
Verification of the `turbo` macro-expansion / MapCSS subsystem of the
go-overpass library, as a shallow embedding in Lean 4.

Modelling conventions:
* Go strings are modelled as `List Char` (the relevant behaviour is ASCII;
  Go indexes bytes, which coincides with characters on ASCII input).
* Go `float64` arithmetic is modelled exactly: values are rationals and
  every rounding step of the code (`/`, `*` on float64, float literals)
  is made explicit through `fl64`, IEEE-754 binary64 round-to-nearest,
  ties-to-even (normal range; the code never leaves it on the inputs the
  claims are about).
* Go `int`/`int64` conversions: float-to-int conversion truncates toward
  zero (`truncQ`); 64-bit wraparound where additions can overflow (`wrap64`).
-/

-- The Batteries rational-arithmetic primitives are marked irreducible,
-- which blocks kernel evaluation inside `decide`/`rfl`; restore the
-- default transparency for them.
set_option allowUnsafeReducibility true in
attribute [semireducible] Rat.add Rat.mul Rat.inv Rat.sub

namespace GoOverpass

abbrev Str := List Char

/-! ## Go `strings` primitives on `Str` -/

/-- `unicode.IsSpace` restricted to ASCII (all inputs of interest are ASCII). -/
def goIsSpace (c : Char) : Bool :=
  c == ' ' || c == '\t' || c == '\n' || c == '\x0b' || c == '\x0c' || c == '\r'

/-- `strings.TrimSpace`, left part. -/
def trimLeftSpace (s : Str) : Str := s.dropWhile goIsSpace

/-- `strings.TrimSpace`, right part. -/
def trimRightSpace (s : Str) : Str := (s.reverse.dropWhile goIsSpace).reverse

/-- `strings.TrimSpace`. -/
def trimSpace (s : Str) : Str := trimRightSpace (trimLeftSpace s)

/-- `isPre pat s` is `strings.HasPrefix(s, pat)`. -/
def isPre : Str → Str → Bool
  | [], _ => true
  | _ :: _, [] => false
  | p :: ps, c :: cs => p == c && isPre ps cs

/-- `strings.HasSuffix(s, pat)`. -/
def isSuf (pat s : Str) : Bool := isPre pat.reverse s.reverse

/-- `strings.TrimPrefix(s, pat)`. -/
def goTrimPre (s pat : Str) : Str := if isPre pat s then s.drop pat.length else s

/-- `strings.TrimSuffix(s, pat)`. -/
def goTrimSuf (s pat : Str) : Str :=
  if isSuf pat s then s.take (s.length - pat.length) else s

/-- `strings.Index(s, pat)`, presented as the split around the first
occurrence of `pat` (`none` when `pat` does not occur). -/
def splitFirst (pat : Str) : Str → Option (Str × Str)
  | [] => if isPre pat [] then some ([], []) else none
  | c :: cs =>
    if isPre pat (c :: cs) then some ([], (c :: cs).drop pat.length)
    else match splitFirst pat cs with
      | some (pre, post) => some (c :: pre, post)
      | none => none

/-- `strings.Contains(s, pat)`. -/
def containsSub (s pat : Str) : Bool := (splitFirst pat s).isSome

/-- `strings.SplitN(s, sep, 2)` for a one-character separator `sep`:
the part before the first occurrence, and the remainder if `sep` occurs. -/
def splitOnce (sep : Char) (s : Str) : Str × Option Str :=
  match splitFirst [sep] s with
  | some (a, b) => (a, some b)
  | none => (s, none)

/-- `strings.ToLower` restricted to ASCII (byte-value comparisons, as the
Go code effectively performs on ASCII input). -/
def toLowerAscii (c : Char) : Char :=
  if ('A').toNat ≤ c.toNat ∧ c.toNat ≤ ('Z').toNat then Char.ofNat (c.toNat + 32) else c

/-- `strings.ToLower` (ASCII model). -/
def goToLower (s : Str) : Str := s.map toLowerAscii

/-- `strings.EqualFold` (ASCII model). -/
def equalFold (a b : Str) : Bool := goToLower a == goToLower b

/-- `strings.Fields`: split around runs of whitespace, no empty fields.
Structured as an accumulator recursion to stay structural. -/
def fieldsAux : Str → Str → List Str
  | [], acc => if acc.isEmpty then [] else [acc.reverse]
  | c :: cs, acc =>
    if goIsSpace c then
      if acc.isEmpty then fieldsAux cs [] else acc.reverse :: fieldsAux cs []
    else fieldsAux cs (c :: acc)

def goFields (s : Str) : List Str := fieldsAux s []

/-- ASCII decimal digit test (byte-value comparisons). -/
def isDigitB (c : Char) : Bool := ('0').toNat ≤ c.toNat && c.toNat ≤ ('9').toNat

def digitVal (c : Char) : ℕ := c.toNat - '0'.toNat

/-- Decimal digits to a natural number. -/
def decDigitsVal (s : Str) : ℕ := s.foldl (fun a c => a * 10 + digitVal c) 0

/-- `strconv.Atoi`: optional sign, then one or more decimal digits, failing
on anything else and on 64-bit overflow. -/
def goAtoi (s : Str) : Option ℤ :=
  let (sign, digits) : ℤ × Str :=
    match s with
    | '+' :: rest => (1, rest)
    | '-' :: rest => (-1, rest)
    | _ => (1, s)
  if digits.isEmpty then none
  else if digits.all isDigitB then
    let v : ℤ := sign * decDigitsVal digits
    if -(2 ^ 63) ≤ v ∧ v < 2 ^ 63 then some v else none
  else none

/-- Round-half-even of a rational to an integer (IEEE tie-breaking). -/
def rhe (q : ℚ) : ℤ :=
  let n : ℤ := ⌊q⌋
  let f : ℚ := q - n
  if f < 1/2 then n
  else if 1/2 < f then n + 1
  else if n % 2 = 0 then n else n + 1

/-- `2 ^ e` in `ℚ` for an integer exponent, by structural recursion (so that
kernel evaluation works inside `decide`). -/
def pow2Q : ℤ → ℚ
  | .ofNat n => 2 ^ n
  | .negSucc n => 1 / 2 ^ (n + 1)

/-- For `1 ≤ s`: the largest `e ≤ fuel` with `2 ^ e ≤ s`
(structural recursion on the fuel, which only bounds the exponent). -/
def log2ge1 : ℕ → ℚ → ℕ
  | 0, _ => 0
  | f + 1, s => if 2 ≤ s then log2ge1 f (s / 2) + 1 else 0

/-- For `0 < s < 1`: the smallest `k` with `1 ≤ s * 2 ^ k`. -/
def log2lt1 : ℕ → ℚ → ℕ
  | 0, _ => 0
  | f + 1, s => if 1 ≤ s then 0 else log2lt1 f (s * 2) + 1

/-- `⌊log₂ s⌋` for positive rationals (exponent magnitudes up to 1500). -/
def binExp (s : ℚ) : ℤ :=
  if 1 ≤ s then (log2ge1 1500 s : ℤ) else -(log2lt1 1500 s : ℤ)

/-- IEEE-754 binary64 rounding of a real (rational) value: round to 53
significant bits, round-to-nearest, ties-to-even.  Subnormal underflow and
overflow to infinity are not modelled (the embedded code only produces
values well inside the normal range). -/
def fl64 (q : ℚ) : ℚ :=
  if q = 0 then 0
  else
    let s : ℚ := |q|
    let e : ℤ := binExp s
    let m : ℤ := rhe (s * pow2Q (52 - e))
    (if q < 0 then -1 else 1) * (m : ℚ) * pow2Q (e - 52)

/-- Go float-to-integer conversion: truncation toward zero. -/
def truncQ (q : ℚ) : ℤ :=
  if 0 ≤ q then ⌊q⌋ else -⌊-q⌋

/-! ## `fmt` verb models -/

def padZeroLeft (w : ℕ) (s : Str) : Str := List.replicate (w - s.length) '0' ++ s

/-- `fmt.Sprintf("%02x", v)` for a (signed) integer: lowercase hex,
zero-padded after the sign to a total width of 2. -/
def fmt02x (v : ℤ) : Str :=
  if 0 ≤ v then padZeroLeft 2 (Nat.toDigits 16 v.toNat)
  else '-' :: padZeroLeft 1 (Nat.toDigits 16 (-v).toNat)

/-- `fmt.Sprintf("%d", v)`. -/
def decInt (v : ℤ) : Str :=
  if 0 ≤ v then Nat.toDigits 10 v.toNat
  else '-' :: Nat.toDigits 10 (-v).toNat

/-! ## Color utilities (mapcss.go) -/

/-- `Color`: RGBA with `float64` channels, modelled as exact rationals
(every float operation performed on them is rounded through `fl64`). -/
structure Color where
  r : ℚ
  g : ℚ
  b : ℚ
  a : ℚ
  deriving DecidableEq, Repr

def isLetterB (c : Char) : Bool :=
  (('a').toNat ≤ c.toNat && c.toNat ≤ ('z').toNat) ||
  (('A').toNat ≤ c.toNat && c.toNat ≤ ('Z').toNat)

def isIdentB (c : Char) : Bool :=
  isLetterB c || isDigitB c || c == '-' || c == '_' || c == '@'

def isHexDigitB (c : Char) : Bool :=
  isDigitB c || (('a').toNat ≤ c.toNat && c.toNat ≤ ('f').toNat) ||
  (('A').toNat ≤ c.toNat && c.toNat ≤ ('F').toNat)

/-- `hexVal`: value of one hex digit character, 0 for anything else. -/
def hexVal (c : Char) : ℕ :=
  if ('0').toNat ≤ c.toNat ∧ c.toNat ≤ ('9').toNat then c.toNat - ('0').toNat
  else if ('a').toNat ≤ c.toNat ∧ c.toNat ≤ ('f').toNat then c.toNat - ('a').toNat + 10
  else if ('A').toNat ≤ c.toNat ∧ c.toNat ≤ ('F').toNat then c.toNat - ('A').toNat + 10
  else 0

theorem hexVal_le15 (c : Char) (h : isHexDigitB c = true) : hexVal c ≤ 15 := by
  unfold isHexDigitB isDigitB at h
  simp only [Bool.or_eq_true, Bool.and_eq_true, decide_eq_true_eq] at h
  unfold hexVal
  have h0 : ('0').toNat = 48 := rfl
  have h9 : ('9').toNat = 57 := rfl
  have ha : ('a').toNat = 97 := rfl
  have hf : ('f').toNat = 102 := rfl
  have hA : ('A').toNat = 65 := rfl
  have hF : ('F').toNat = 70 := rfl
  split_ifs <;> omega

theorem hexDigit_ne_hash (c : Char) (h : isHexDigitB c = true) : ¬ ('#' == c) = true := by
  unfold isHexDigitB isDigitB at h
  simp only [Bool.or_eq_true, Bool.and_eq_true, decide_eq_true_eq] at h
  simp only [beq_iff_eq]
  intro he
  subst he
  have h0 : ('0').toNat = 48 := rfl
  have h9 : ('9').toNat = 57 := rfl
  have ha : ('a').toNat = 97 := rfl
  have hf : ('f').toNat = 102 := rfl
  have hA : ('A').toNat = 65 := rfl
  have hF : ('F').toNat = 70 := rfl
  have hh : ('#').toNat = 35 := rfl
  omega

/-- `parseHexColorValue`: hex string (with or without leading `#`) of
length 3/4/6/8 to a color; anything else is the invalid-hex-color error
(modelled by returning the offending text). -/
def parseHexColorValue (hex : Str) : Except Str Color :=
  let h := goTrimPre hex ['#']
  match h with
  | [r, g, b] =>
    .ok ⟨fl64 ((hexVal r * 17 : ℕ) / 255), fl64 ((hexVal g * 17 : ℕ) / 255),
         fl64 ((hexVal b * 17 : ℕ) / 255), 1⟩
  | [r, g, b, a] =>
    .ok ⟨fl64 ((hexVal r * 17 : ℕ) / 255), fl64 ((hexVal g * 17 : ℕ) / 255),
         fl64 ((hexVal b * 17 : ℕ) / 255), fl64 ((hexVal a * 17 : ℕ) / 255)⟩
  | [r1, r2, g1, g2, b1, b2] =>
    .ok ⟨fl64 ((hexVal r1 * 16 + hexVal r2 : ℕ) / 255),
         fl64 ((hexVal g1 * 16 + hexVal g2 : ℕ) / 255),
         fl64 ((hexVal b1 * 16 + hexVal b2 : ℕ) / 255), 1⟩
  | [r1, r2, g1, g2, b1, b2, a1, a2] =>
    .ok ⟨fl64 ((hexVal r1 * 16 + hexVal r2 : ℕ) / 255),
         fl64 ((hexVal g1 * 16 + hexVal g2 : ℕ) / 255),
         fl64 ((hexVal b1 * 16 + hexVal b2 : ℕ) / 255),
         fl64 ((hexVal a1 * 16 + hexVal a2 : ℕ) / 255)⟩
  | _ => .error h

/-- The `namedColors` table.  Non-dyadic Go float literals are rounded
through `fl64`, exactly as the compiled constants are. -/
def namedColors : List (Str × Color) :=
  [ (("black").toList, ⟨0, 0, 0, 1⟩)
  , (("white").toList, ⟨1, 1, 1, 1⟩)
  , (("red").toList, ⟨1, 0, 0, 1⟩)
  , (("green").toList, ⟨0, 1/2, 0, 1⟩)
  , (("blue").toList, ⟨0, 0, 1, 1⟩)
  , (("yellow").toList, ⟨1, 1, 0, 1⟩)
  , (("cyan").toList, ⟨0, 1, 1, 1⟩)
  , (("magenta").toList, ⟨1, 0, 1, 1⟩)
  , (("gray").toList, ⟨1/2, 1/2, 1/2, 1⟩)
  , (("grey").toList, ⟨1/2, 1/2, 1/2, 1⟩)
  , (("orange").toList, ⟨1, fl64 (647/1000), 0, 1⟩)
  , (("purple").toList, ⟨1/2, 0, 1/2, 1⟩)
  , (("brown").toList, ⟨fl64 (647/1000), fl64 (165/1000), fl64 (165/1000), 1⟩)
  , (("pink").toList, ⟨1, fl64 (753/1000), fl64 (796/1000), 1⟩)
  , (("lime").toList, ⟨0, 1, 0, 1⟩)
  , (("navy").toList, ⟨0, 0, 1/2, 1⟩)
  , (("teal").toList, ⟨0, 1/2, 1/2, 1⟩)
  , (("olive").toList, ⟨1/2, 1/2, 0, 1⟩)
  , (("maroon").toList, ⟨1/2, 0, 0, 1⟩)
  , (("aqua").toList, ⟨0, 1, 1, 1⟩)
  , (("silver").toList, ⟨fl64 (753/1000), fl64 (753/1000), fl64 (753/1000), 1⟩)
  , (("fuchsia").toList, ⟨1, 0, 1, 1⟩) ]

def lookupStr {α : Type} : List (Str × α) → Str → Option α
  | [], _ => none
  | (k, v) :: rest, key => if k = key then some v else lookupStr rest key

/-- `parseNamedColor`. -/
def parseNamedColor (name : Str) : Option Color :=
  lookupStr namedColors (goToLower name)

/-- `Color.Hex`: `int(channel*255)` per channel (float multiply, then Go's
truncating float-to-int conversion), rendered `%02x`; the two-digit alpha
suffix appears exactly when `A == 1.0` fails. -/
def Color.Hex (c : Color) : Str :=
  let red := truncQ (fl64 (c.r * 255))
  let green := truncQ (fl64 (c.g * 255))
  let blue := truncQ (fl64 (c.b * 255))
  if c.a = 1 then
    '#' :: (fmt02x red ++ fmt02x green ++ fmt02x blue)
  else
    '#' :: (fmt02x red ++ fmt02x green ++ fmt02x blue ++
            fmt02x (truncQ (fl64 (c.a * 255))))

/-! ## MapCSS data model (mapcss.go) -/

inductive ValueType where
  | vString | vNumber | vColor | vURL | vEval | vDashes | vKeyword
  deriving DecidableEq, Repr

/-- `Value`: a MapCSS property value.  The unused `Strings` field of the Go
struct is omitted (it is never written or read). -/
structure Value where
  raw : Str := []
  typ : ValueType := .vString
  color : Option Color := none
  number : ℚ := 0
  url : Str := []
  evalExpr : Str := []
  dashes : List ℚ := []
  deriving DecidableEq, Repr

/-- `Condition`.  The compiled regex is modelled by the pattern it was
compiled from (`regexp.Compile` is Go library code; its failure case, which
would surface as a parse error, is not modelled). -/
structure Condition where
  key : Str := []
  operator : Str := []
  value : Str := []
  regex : Option Str := none
  deriving DecidableEq, Repr

structure Declaration where
  property : Str
  value : Value
  deriving DecidableEq, Repr

/-- `Selector` (an inductive because of the recursive `Parent` link). -/
inductive Selector where
  | mk (typ layer : Str) (zoomMin zoomMax : ℤ) (conditions : List Condition)
       (pseudoClasses : List Str) (classes : List Str) (parent : Option Selector)
  deriving Repr

def Selector.typ : Selector → Str | .mk t _ _ _ _ _ _ _ => t
def Selector.layer : Selector → Str | .mk _ l _ _ _ _ _ _ => l
def Selector.zoomMin : Selector → ℤ | .mk _ _ z _ _ _ _ _ => z
def Selector.zoomMax : Selector → ℤ | .mk _ _ _ z _ _ _ _ => z
def Selector.conditions : Selector → List Condition | .mk _ _ _ _ c _ _ _ => c
def Selector.pseudoClasses : Selector → List Str | .mk _ _ _ _ _ p _ _ => p
def Selector.classes : Selector → List Str | .mk _ _ _ _ _ _ c _ => c
def Selector.parent : Selector → Option Selector | .mk _ _ _ _ _ _ _ p => p
def Selector.withParent (s : Selector) (p : Option Selector) : Selector :=
  match s with | .mk t l zn zx c ps cl _ => .mk t l zn zx c ps cl p

structure Rule where
  selectors : List Selector
  declarations : List Declaration
  deriving Repr

structure Stylesheet where
  rules : List Rule
  deriving Repr

structure ParseError where
  line : ℕ
  col : ℕ
  message : Str
  deriving DecidableEq, Repr

/-! ## Parser state and cursor primitives

Go's parser owns `(input, pos, line, col)`; we keep the yet-unread suffix
`rest` (`= input[pos:]`) together with `line`/`col`. -/

structure PSt where
  rest : Str
  line : ℕ
  col : ℕ
  deriving DecidableEq, Repr

/-- `p.peek()`: byte 0 at end of input. -/
def peekC (st : PSt) : Char := st.rest.headD (Char.ofNat 0)

/-- `p.advance()`. -/
def advance (st : PSt) : PSt :=
  match st.rest with
  | [] => st
  | c :: cs =>
    if c = '\n' then ⟨cs, st.line + 1, 1⟩ else ⟨cs, st.line, st.col + 1⟩

/-- `k` repetitions of `p.advance()`. -/
def advN : PSt → ℕ → PSt
  | st, 0 => st
  | st, k + 1 => advN (advance st) k

/-- `p.pos += k` (Go moves the cursor without touching line/col here). -/
def advRaw (st : PSt) (k : ℕ) : PSt := { st with rest := st.rest.drop k }

def errAt (st : PSt) (msg : Str) : ParseError := ⟨st.line, st.col, msg⟩

def isWhitespaceB (c : Char) : Bool :=
  c == ' ' || c == '\t' || c == '\n' || c == '\r'

theorem advance_rest (st : PSt) : (advance st).rest = st.rest.tail := by
  rcases st with ⟨rest, line, col⟩
  cases rest with
  | nil => rfl
  | cons c cs => simp only [advance]; split <;> rfl

theorem advN_rest (st : PSt) (k : ℕ) : (advN st k).rest = st.rest.drop k := by
  induction k generalizing st with
  | zero => simp [advN]
  | succ n ih =>
    rw [advN, ih, advance_rest]
    cases st.rest <;> simp

theorem advance_rest_lt (st : PSt) (h : st.rest ≠ []) :
    (advance st).rest.length < st.rest.length := by
  rw [advance_rest]
  cases hr : st.rest with
  | nil => exact absurd hr h
  | cons c cs => simp

/-- `p.skipWhitespace()`. -/
def skipWhitespace (st : PSt) : PSt :=
  advN st (st.rest.takeWhile isWhitespaceB).length

/-- `p.skipLineComment()`: advance to the next newline (or end). -/
def skipLineComment (st : PSt) : PSt :=
  advN st (st.rest.takeWhile (fun c => !(c == '\n'))).length

/-- One scan of `p.skipBlockComment`'s loop (already past the `/*`):
characters advanced before `*/`, and whether `*/` was found. -/
def starSlashScan : Str → ℕ × Bool
  | c1 :: c2 :: rest =>
    if c1 = '*' ∧ c2 = '/' then (0, true)
    else
      let (k, f) := starSlashScan (c2 :: rest)
      (k + 1, f)
  | _ => (0, false)

/-- `p.skipBlockComment()`. -/
def skipBlockComment (st : PSt) : PSt :=
  match starSlashScan (st.rest.drop 2) with
  | (k, true) => advRaw (advN (advRaw st 2) k) 2
  | (k, false) => advN (advRaw st 2) k

theorem skipBlockComment_rest_le (st : PSt) :
    (skipBlockComment st).rest.length ≤ st.rest.length - 2 := by
  unfold skipBlockComment
  rcases hss : starSlashScan (st.rest.drop 2) with ⟨k, f⟩
  cases f <;>
    simp only [hss, advRaw, advN_rest, List.drop_drop, List.length_drop] <;> omega

theorem skipLineComment_rest (st : PSt) :
    (skipLineComment st).rest =
      st.rest.drop (st.rest.takeWhile (fun c => !(c == '\n'))).length := by
  simp [skipLineComment, advN_rest]

/-- `p.skipWhitespaceAndComments()`, with a structural iteration budget.
Every loop iteration consumes at least one character, so the budget
`st.rest.length` used by `skipWSC` is provably never exhausted
(`skipWSCGo_congr`). -/
def skipWSCGo : ℕ → PSt → PSt
  | 0, st => st
  | n + 1, st =>
    match st.rest with
    | [] => st
    | c :: cs =>
      if isWhitespaceB c then skipWSCGo n (advance st)
      else
        match cs with
        | c2 :: _ =>
          if c = '/' then
            if c2 = '*' then skipWSCGo n (skipBlockComment st)
            else if c2 = '/' then skipWSCGo n (skipLineComment st)
            else st
          else st
        | [] => st

/-- `p.skipWhitespaceAndComments()`. -/
def skipWSC (st : PSt) : PSt := skipWSCGo st.rest.length st

/-- The iteration budget of `skipWSCGo` is irrelevant as soon as it covers
the length of the unread input: the loop body always consumes. -/
theorem skipWSCGo_congr : ∀ n m st, st.rest.length ≤ n → st.rest.length ≤ m →
    skipWSCGo n st = skipWSCGo m st := by
  intro n
  induction n with
  | zero =>
    intro m st hn _
    have he : st.rest = [] := List.length_eq_zero.mp (Nat.le_zero.mp hn)
    cases m with
    | zero => rfl
    | succ m => simp [skipWSCGo, he]
  | succ n ih =>
    intro m st hn hm
    cases m with
    | zero =>
      have he : st.rest = [] := List.length_eq_zero.mp (Nat.le_zero.mp hm)
      simp [skipWSCGo, he]
    | succ m =>
      rw [skipWSCGo, skipWSCGo]
      cases hr : st.rest with
      | nil => rfl
      | cons c cs =>
        by_cases hw : isWhitespaceB c
        · simp only [hw, if_true]
          have hlt : (advance st).rest.length < st.rest.length :=
            advance_rest_lt st (by rw [hr]; simp)
          rw [hr] at hlt hn hm
          simp only [List.length_cons] at hlt hn hm
          exact ih m (advance st) (by omega) (by omega)
        · simp only [hw, if_false]
          cases cs with
          | nil => rfl
          | cons c2 cs2 =>
            by_cases hc : c = '/'
            · simp only [hc, if_true]
              by_cases h2 : c2 = '*'
              · simp only [h2, if_true]
                have hb := skipBlockComment_rest_le st
                rw [hr] at hb hn hm
                simp only [List.length_cons] at hb hn hm
                exact ih m _ (by omega) (by omega)
              · simp only [h2, if_false]
                by_cases h3 : c2 = '/'
                · simp only [h3, if_true]
                  have h1 : 1 ≤ (st.rest.takeWhile (fun x => !(x == '\n'))).length := by
                    rw [hr, hc, List.takeWhile_cons_of_pos (by decide)]
                    simp
                  have h5 : (skipLineComment st).rest.length < st.rest.length := by
                    rw [skipLineComment_rest]
                    simp only [List.length_drop]
                    have hlen : 1 ≤ st.rest.length := by rw [hr]; simp
                    omega
                  rw [hr] at h5 hn hm
                  simp only [List.length_cons] at h5 hn hm
                  exact ih m _ (by omega) (by omega)
                · simp [h3]
            · simp [hc]

/-! ## Token-level parsing primitives -/

/-- `p.parseIdent()`. -/
def parseIdent (st : PSt) : Str × PSt :=
  let t := st.rest.takeWhile isIdentB
  (t, advN st t.length)

/-- `p.parseNumber()`. -/
def parseNumber (st : PSt) : Str × PSt :=
  let t := st.rest.takeWhile (fun c => isDigitB c || c == '-' || c == '.')
  (t, advN st t.length)

/-- List-level core of `p.parseUntilClosingParen()`: content collected at
the given depth, plus number of characters consumed (the `)` closing depth
1 is consumed but not collected). -/
def parenScan : Str → ℕ → Str × ℕ
  | [], _ => ([], 0)
  | c :: cs, depth =>
    if c = '(' then
      let (o, k) := parenScan cs (depth + 1)
      (c :: o, k + 1)
    else if c = ')' then
      if depth = 1 then ([], 1)
      else
        let (o, k) := parenScan cs (depth - 1)
        (c :: o, k + 1)
    else
      let (o, k) := parenScan cs depth
      (c :: o, k + 1)

/-- `p.parseUntilClosingParen()`. -/
def parseUntilClosingParen (st : PSt) : Str × PSt :=
  let (o, k) := parenScan st.rest 1
  (o, advN st k)

/-- Depth bookkeeping mirror of `parenScan`: the depth after scanning `s`
from `depth`, or `none` if a `)` at depth 1 ends the scan inside `s`. -/
def scanDepth : Str → ℕ → Option ℕ
  | [], d => some d
  | c :: cs, d =>
    if c = '(' then scanDepth cs (d + 1)
    else if c = ')' then
      if d = 1 then none else scanDepth cs (d - 1)
    else scanDepth cs d

/-- List-level core of `p.parseQuotedString()` after the opening quote. -/
def qsScan (quote : Char) : Str → Str × ℕ
  | [] => ([], 0)
  | c :: cs =>
    if hc : c = '\\' ∧ cs ≠ [] then
      match cs with
      | c2 :: rest =>
        let (o, k) := qsScan quote rest
        (c2 :: o, k + 2)
      | [] => ([], 0)
    else if c = quote then ([], 1)
    else
      let (o, k) := qsScan quote cs
      (c :: o, k + 1)

/-- `p.parseQuotedString()`. -/
def parseQuotedString (st : PSt) : Str × PSt :=
  match st.rest with
  | [] => ([], st)
  | q :: _ =>
    if q = '"' ∨ q = '\'' then
      let st1 := advance st
      let (o, k) := qsScan q st1.rest
      (o, advN st1 k)
    else parseIdent st

/-- List-level core of `p.parseRegex()` after the opening `/`. -/
def rgScan : Str → Str × ℕ
  | [] => ([], 0)
  | c :: cs =>
    if hc : c = '\\' ∧ cs ≠ [] then
      match cs with
      | c2 :: rest =>
        let (o, k) := rgScan rest
        (c :: c2 :: o, k + 2)
      | [] => ([], 0)
    else if c = '/' then (['/'], 1)
    else
      let (o, k) := rgScan cs
      (c :: o, k + 1)

/-- `p.parseRegex()`. -/
def parseRegex (st : PSt) : Str × PSt :=
  if peekC st = '/' then
    let st1 := advance st
    let (o, k) := rgScan st1.rest
    ('/' :: o, advN st1 k)
  else ([], st)

/-- `p.parseValueString()`. -/
def parseValueString (st : PSt) : Str × PSt :=
  let st1 := skipWhitespace st
  match st1.rest with
  | [] => ([], st1)
  | c :: _ =>
    if c = '"' ∨ c = '\'' then parseQuotedString st1
    else if c = '/' then parseRegex st1
    else
      let t := st1.rest.takeWhile
        (fun ch => !(ch == ']' || ch == ';' || ch == '\x7d' || isWhitespaceB ch))
      (t, advN st1 t.length)

/-- `p.parseOperator()`. -/
def parseOperator (st : PSt) : Str × PSt :=
  if st.rest = [] then ([], st)
  else
    let two := st.rest.take 2
    if 2 ≤ st.rest.length ∧
        (two = ('=' :: ['~']) ∨ two = ('!' :: ['~']) ∨ two = ('!' :: ['=']) ∨
         two = ('<' :: ['=']) ∨ two = ('>' :: ['='])) then
      (two, advRaw st 2)
    else
      let c := peekC st
      if c = '=' ∨ c = '<' ∨ c = '>' then ([c], advance st)
      else ([], st)

/-- `p.parseKeyOrString()`. -/
def parseKeyOrString (st : PSt) : Str × PSt :=
  let st1 := skipWhitespace st
  match st1.rest with
  | [] => ([], st1)
  | c :: _ =>
    if c = '"' ∨ c = '\'' then parseQuotedString st1
    else parseIdent st1

/-- `p.compileConditionRegex(operator, value)`.  `regexp.Compile` is Go
library code; it is modelled as always succeeding, recording the stripped
pattern (its failure branch, a parse error, is outside this model; so is
the slice panic Go would hit on the one-character value `"/"`). -/
def compileConditionRegex (op value : Str) : Option Str :=
  if op = ('=' :: ['~']) ∨ op = ('!' :: ['~']) then
    if isPre ['/'] value ∧ isSuf ['/'] value then
      some ((value.drop 1).take (value.length - 2))
    else some value
  else none

/-! ## Value parsing -/

/-- `strings.Trim(s, chars)`: strip any of `chars` from both ends. -/
def goTrimChars (s : Str) (chars : List Char) : Str :=
  ((s.dropWhile (· ∈ chars)).reverse.dropWhile (· ∈ chars)).reverse

/-- `strconv.ParseFloat(s, 64)`, modelled for the decimal and inf/nan
forms (hex-float syntax and digit-group underscores are not modelled; no
claim exercises them).  Returns the exactly-rounded binary64 value; fails
on syntax errors and on overflow, like Go (which reports `ErrRange`).
The payload stored for `±inf` stands in for the IEEE infinities. -/
def goParseFloat (s : Str) : Option ℚ :=
  let (sign, rest) : ℚ × Str :=
    match s with
    | '+' :: r => (1, r)
    | '-' :: r => (-1, r)
    | _ => (1, s)
  let low := goToLower rest
  if low = ("inf").toList ∨ low = ("infinity").toList then some (sign * 2 ^ 1024)
  else if low = ("nan").toList then some 0
  else
    let (mant, expTail) := rest.span (fun c => !(c == 'e' || c == 'E'))
    let expVal : Option ℤ :=
      match expTail with
      | [] => some 0
      | _ :: etail =>
        let (esign, edig) : ℤ × Str :=
          match etail with
          | '+' :: r => (1, r)
          | '-' :: r => (-1, r)
          | _ => (1, etail)
        if edig ≠ [] ∧ edig.all isDigitB then some (esign * decDigitsVal edig)
        else none
    match expVal with
    | none => none
    | some ex =>
      let (ip, dotTail) := mant.span (fun c => !(c == '.'))
      let frac : Option Str :=
        match dotTail with
        | [] => some []
        | _ :: ftail => if '.' ∈ ftail then none else some ftail
      match frac with
      | none => none
      | some fr =>
        if ip.all isDigitB ∧ fr.all isDigitB ∧ (ip ≠ [] ∨ fr ≠ []) then
          let base : ℚ := (decDigitsVal (ip ++ fr) : ℚ) / 10 ^ fr.length
          let v : ℚ :=
            if 0 ≤ ex then base * 10 ^ ex.toNat else base / 10 ^ (-ex).toNat
          let r := fl64 (sign * v)
          if |r| < 2 ^ 1024 then some r else none
        else none

/-- `p.determineValueType(rawStr)`. -/
def determineValueType (rawStr : Str) : Value :=
  match parseNamedColor rawStr with
  | some c => { raw := rawStr, typ := .vColor, color := some c }
  | none =>
    match goParseFloat rawStr with
    | some n => { raw := rawStr, typ := .vNumber, number := n }
    | none =>
      if containsSub rawStr [','] ∧ ¬ (rawStr.any (fun c => c == '(' || c == ')')) then
        let parts := rawStr.splitOn ','
        let nums := parts.map (fun p => goParseFloat (trimSpace p))
        if nums.all Option.isSome then
          { raw := rawStr, typ := .vDashes, dashes := nums.map (·.getD 0) }
        else { raw := rawStr, typ := .vKeyword }
      else { raw := rawStr, typ := .vKeyword }

/-- `p.parseURLValue()` (cursor already at `url(`). -/
def parseURLValue (st : PSt) : Value × PSt :=
  let st1 := advRaw st 4
  let (content, st2) := parseUntilClosingParen st1
  ({ raw := ("url(").toList ++ content ++ [')'], typ := .vURL,
     url := goTrimChars content ['\'', '"'] }, st2)

/-- `p.parseEvalValue()`. -/
def parseEvalValue (st : PSt) : Value × PSt :=
  let st1 := advRaw st 5
  let (content, st2) := parseUntilClosingParen st1
  ({ raw := ("eval(").toList ++ content ++ [')'], typ := .vEval,
     evalExpr := goTrimChars content ['\'', '"'] }, st2)

/-- `p.parseRGBColor()` (errors of the inner `ParseFloat`s are discarded,
exactly as the Go code does with `_`). -/
def parseRGBColor (st : PSt) : Except ParseError (Value × PSt) :=
  let st1 := advRaw st 4
  let (content, st2) := parseUntilClosingParen st1
  let parts := content.splitOn ','
  if parts.length ≠ 3 then .error (errAt st2 (("rgb() requires 3 values").toList))
  else
    let comp (p : Str) : ℚ := (goParseFloat (trimSpace p)).getD 0
    .ok ({ raw := ("rgb(").toList ++ content ++ [')'], typ := .vColor,
           color := some ⟨comp (parts.getD 0 []), comp (parts.getD 1 []),
                          comp (parts.getD 2 []), 1⟩ }, st2)

/-- `p.parseRGBAColor()`. -/
def parseRGBAColor (st : PSt) : Except ParseError (Value × PSt) :=
  let st1 := advRaw st 5
  let (content, st2) := parseUntilClosingParen st1
  let parts := content.splitOn ','
  if parts.length ≠ 4 then .error (errAt st2 (("rgba() requires 4 values").toList))
  else
    let comp (p : Str) : ℚ := (goParseFloat (trimSpace p)).getD 0
    .ok ({ raw := ("rgba(").toList ++ content ++ [')'], typ := .vColor,
           color := some ⟨comp (parts.getD 0 []), comp (parts.getD 1 []),
                          comp (parts.getD 2 []), comp (parts.getD 3 [])⟩ }, st2)

/-- `p.parseHexColor()`. -/
def parseHexColor (st : PSt) : Except ParseError (Value × PSt) :=
  if peekC st ≠ '#' then .error (errAt st (("expected '#'").toList))
  else
    let st1 := advance st
    let t := st1.rest.takeWhile isHexDigitB
    let st2 := advN st1 t.length
    let hexStr := '#' :: t
    match parseHexColorValue hexStr with
    | .error h => .error (errAt st2 (("invalid hex color: #").toList ++ h))
    | .ok c => .ok ({ raw := hexStr, typ := .vColor, color := some c }, st2)

/-- `p.parseValue()`. -/
def parseValue (st : PSt) : Except ParseError (Value × PSt) :=
  let st0 := skipWhitespace st
  if st0.rest = [] then .ok ({}, st0)
  else if 4 < st0.rest.length ∧ st0.rest.take 4 = ("url(").toList then
    .ok (parseURLValue st0)
  else if 5 < st0.rest.length ∧ st0.rest.take 5 = ("eval(").toList then
    .ok (parseEvalValue st0)
  else if 4 < st0.rest.length ∧ st0.rest.take 4 = ("rgb(").toList then
    parseRGBColor st0
  else if 5 < st0.rest.length ∧ st0.rest.take 5 = ("rgba(").toList then
    parseRGBAColor st0
  else if peekC st0 = '#' then parseHexColor st0
  else
    let t := st0.rest.takeWhile (fun c => !(c == ';' || c == '\x7d'))
    let stc := advN st0 t.length
    .ok (determineValueType (trimSpace t), stc)

/-- `p.parseSetDeclaration()` (cursor still at `set`). -/
def parseSetDeclaration (st : PSt) : Declaration × PSt :=
  let st1 := skipWhitespace (advRaw st 3)
  if peekC st1 = '.' ∧ st1.rest ≠ [] then
    let (className, st2) := parseIdent (advance st1)
    let st3 := skipWhitespace st2
    let st4 := if st3.rest ≠ [] ∧ peekC st3 = ';' then advance st3 else st3
    (⟨("set-class").toList, { raw := className, typ := .vString }⟩, st4)
  else
    let (tagName, st2) := parseIdent st1
    let st3 := skipWhitespace st2
    let (value, st4) : Str × PSt :=
      if st3.rest ≠ [] ∧ peekC st3 = '=' then
        parseValueString (skipWhitespace (advance st3))
      else (("yes").toList, st3)
    let st5 := skipWhitespace st4
    let st6 := if st5.rest ≠ [] ∧ peekC st5 = ';' then advance st5 else st5
    (⟨("set-tag:").toList ++ tagName, { raw := value, typ := .vString }⟩, st6)

/-- Result of `p.parseDeclaration()`: a declaration, the skippable
`ErrEmptyDeclaration`, or a hard parse error; always with the cursor as
the Go method leaves it. -/
inductive DeclRes where
  | okD (d : Declaration)
  | emptyD
  | errD (e : ParseError)

/-- `p.parseDeclaration()`. -/
def parseDeclaration (st : PSt) : DeclRes × PSt :=
  let st1 := skipWSC st
  if 3 < st1.rest.length ∧ st1.rest.take 3 = ("set").toList then
    let (d, st2) := parseSetDeclaration st1
    (.okD d, st2)
  else
    let (prop, st2) := parseIdent st1
    if prop = [] then (.emptyD, st2)
    else
      let st3 := skipWhitespace st2
      if st3.rest = [] ∨ peekC st3 ≠ ':' then
        (.errD (errAt st3 (("expected ':'").toList)), st3)
      else
        let st4 := skipWhitespace (advance st3)
        match parseValue st4 with
        | .error e => (.errD e, st4)
        | .ok (v, st5) =>
          let st6 := skipWhitespace st5
          let st7 := if st6.rest ≠ [] ∧ peekC st6 = ';' then advance st6 else st6
          (.okD ⟨prop, v⟩, st7)

/-! ## Conditions, selectors, rules

Loops whose bodies are not guaranteed by the code to consume input take a
fuel parameter; `none` means the fuel ran out.  The Go code diverges on an
input exactly when every fuel budget is exhausted on it. -/

/-- `p.parseCondition()`. -/
def parseCondition (st : PSt) : Except ParseError (Condition × PSt) :=
  if peekC st ≠ '[' then .error (errAt st (("expected '['").toList))
  else
    let st1 := skipWhitespace (advance st)
    let (op0, st2) : Str × PSt :=
      if st1.rest ≠ [] ∧ peekC st1 = '!' then (['!'], advance st1) else ([], st1)
    let (key, st3) := parseKeyOrString st2
    let st4 := skipWhitespace st3
    let (cond, st5) : Condition × PSt :=
      if st4.rest ≠ [] ∧ peekC st4 ≠ ']' then
        let (oper, st5) := parseOperator st4
        if oper ≠ [] then
          let st6 := skipWhitespace st5
          let (value, st7) := parseValueString st6
          (⟨key, oper, value, compileConditionRegex oper value⟩, st7)
        else (⟨key, op0, [], none⟩, st5)
      else (⟨key, op0, [], none⟩, st4)
    let st8 := skipWhitespace st5
    if st8.rest = [] ∨ peekC st8 ≠ ']' then .error (errAt st8 (("expected ']'").toList))
    else .ok (cond, advance st8)

def isTypeStartB (c : Char) : Bool := isLetterB c || c == '*'

/-- `p.shouldContinueParsing(ch)`. -/
def shouldContinueParsing (c : Char) : Bool :=
  !(c == '\x7b') && !(c == ',') && isTypeStartB c

/-- `p.parseSelectorType(sel)`: the parsed type, or the
invalid-selector-start signal. -/
def parseSelectorType (st : PSt) : Except Unit (Str × PSt) :=
  let c := peekC st
  if c = '*' then .ok (['*'], advance st)
  else if isLetterB c then .ok (parseIdent st)
  else if c ≠ '[' ∧ c ≠ ':' ∧ c ≠ '.' ∧ c ≠ '|' then .error ()
  else .ok ([], st)

/-- `p.parseSelectorLayer(sel)`. -/
def parseSelectorLayer (st : PSt) : Str × PSt :=
  if 1 < st.rest.length ∧ st.rest.take 2 = (':' :: [':']) then
    parseIdent (advance (advance st))
  else ([], st)

def atoiOr0 (s : Str) : ℤ := (goAtoi s).getD 0

/-- `p.parseZoomValues(sel)` (including `parseZoomRange`). -/
def parseZoomValues (st : PSt) : (ℤ × ℤ) × PSt :=
  let (zoomStr, st1) := parseNumber st
  if containsSub zoomStr ['-'] then
    match splitOnce '-' zoomStr with
    | (a, some b) => ((atoiOr0 a, if b ≠ [] then atoiOr0 b else 0), st1)
    | (_, none) => ((0, 0), st1)
  else
    let z := atoiOr0 zoomStr
    if st1.rest ≠ [] ∧ peekC st1 = '-' then
      let (maxStr, st2) := parseNumber (advance st1)
      ((z, if maxStr ≠ [] then atoiOr0 maxStr else 0), st2)
    else ((z, z), st1)

/-- `p.parseSelectorZoomRange(sel)`. -/
def parseSelectorZoomRange (st : PSt) : (ℤ × ℤ) × PSt :=
  if st.rest = [] ∨ peekC st ≠ '|' then ((0, 0), st)
  else
    let st1 := advance st
    if st1.rest = [] ∨ peekC st1 ≠ 'z' then ((0, 0), st1)
    else parseZoomValues (advance st1)

/-- `p.parseSelectorModifiers(sel)`: the `[...]`, `:pseudo` and `.class`
loop, accumulating onto the selector fields. -/
def parseSelectorModifiers :
    ℕ → PSt → List Condition → List Str → List Str →
    Option (Except ParseError ((List Condition × List Str × List Str) × PSt))
  | 0, _, _, _, _ => none
  | fuel + 1, st, conds, pseudos, classes =>
    match st.rest with
    | [] => some (.ok ((conds, pseudos, classes), st))
    | c :: cs =>
      if c = '[' then
        match parseCondition st with
        | .error e => some (.error e)
        | .ok (cond, st') =>
          parseSelectorModifiers fuel st' (conds ++ [cond]) pseudos classes
      else if c = ':' ∧ (cs = [] ∨ cs.headD ' ' ≠ ':') then
        let (pseudo, st') := parseIdent (advance st)
        parseSelectorModifiers fuel st' conds
          (if pseudo ≠ [] then pseudos ++ [pseudo] else pseudos) classes
      else if c = '.' then
        let (cls, st') := parseIdent (advance st)
        parseSelectorModifiers fuel st' conds pseudos
          (if cls ≠ [] then classes ++ [cls] else classes)
      else some (.ok ((conds, pseudos, classes), st))

/-- Outcome of `p.parseSingleSelector()`: the three sentinel errors that
terminate a chain are distinguished from hard parse errors; the cursor is
returned as the Go method leaves it. -/
inductive SelRes where
  | okS (sel : Selector)
  | endOfInputS
  | invalidStartS
  | emptySelS
  | hardS (e : ParseError)

/-- `p.parseSingleSelector()`. -/
def parseSingleSelector (fuel : ℕ) (st : PSt) : Option (SelRes × PSt) :=
  let st1 := skipWSC st
  if st1.rest = [] then some (.endOfInputS, st1)
  else if peekC st1 = '\x7b' ∨ peekC st1 = ',' then some (.invalidStartS, st1)
  else
    match parseSelectorType st1 with
    | .error () => some (.invalidStartS, st1)
    | .ok (typ, st2) =>
      let (layer, st3) := parseSelectorLayer st2
      let ((zmin, zmax), st4) := parseSelectorZoomRange st3
      match parseSelectorModifiers fuel st4 [] [] [] with
      | none => none
      | some (.error e) => some (.hardS e, st4)
      | some (.ok ((conds, pseudos, classes), st5)) =>
        if typ = [] ∧ conds = [] ∧ pseudos = [] ∧ classes = [] then
          some (.emptySelS, st5)
        else
          some (.okS (.mk typ layer zmin zmax conds pseudos classes none), st5)

/-- `p.parseSelectorChain()`. -/
def parseSelectorChain : ℕ → PSt → Option (Except ParseError (List Selector × PSt))
  | 0, _ => none
  | fuel + 1, st =>
    match parseSingleSelector fuel st with
    | none => none
    | some (.hardS e, _) => some (.error e)
    | some (.endOfInputS, stx) => some (.ok ([], stx))
    | some (.invalidStartS, stx) => some (.ok ([], stx))
    | some (.emptySelS, stx) => some (.ok ([], stx))
    | some (.okS sel, st') =>
      let st'' := skipWSC st'
      if st''.rest ≠ [] ∧ shouldContinueParsing (peekC st'') then
        match parseSelectorChain fuel st'' with
        | none => none
        | some (.error e) => some (.error e)
        | some (.ok (sels, st3)) => some (.ok (sel :: sels, st3))
      else some (.ok ([sel], st''))

/-- The parent-linking pass at the end of `p.parseSelector()`:
`selectors[i+1].Parent = selectors[i]`, returning the final selector. -/
def linkChain (first : Selector) : List Selector → Selector
  | [] => first
  | s :: rest => linkChain (s.withParent (some first)) rest

/-- `p.parseSelector()`. -/
def parseSelector (fuel : ℕ) (st : PSt) :
    Option (Except ParseError (Selector × PSt)) :=
  let st1 := skipWSC st
  if st1.rest = [] then some (.error (errAt st1 (("unexpected end of input").toList)))
  else
    match parseSelectorChain fuel st1 with
    | none => none
    | some (.error e) => some (.error e)
    | some (.ok ([], st2)) => some (.error (errAt st2 (("no selector parsed").toList)))
    | some (.ok (s :: rest, st2)) => some (.ok (linkChain s rest, st2))

/-- `p.parseSelectors()`. -/
def parseSelectors : ℕ → PSt → Option (Except ParseError (List Selector × PSt))
  | 0, _ => none
  | fuel + 1, st =>
    let st1 := skipWSC st
    if st1.rest = [] then some (.ok ([], st1))
    else if peekC st1 = '\x7b' then some (.ok ([], st1))
    else
      match parseSelector fuel st1 with
      | none => none
      | some (.error e) => some (.error e)
      | some (.ok (sel, st2)) =>
        let st3 := skipWSC st2
        if st3.rest ≠ [] ∧ peekC st3 = ',' then
          match parseSelectors fuel (advance st3) with
          | none => none
          | some (.error e) => some (.error e)
          | some (.ok (sels, st4)) => some (.ok (sel :: sels, st4))
        else some (.ok ([sel], st3))

/-- `p.parseDeclarations()`.  Note the loop `continue`s on
`ErrEmptyDeclaration` without requiring the cursor to have moved — the
fuel is what makes this a (total) function. -/
def parseDeclarations : ℕ → PSt → Option (Except ParseError (List Declaration × PSt))
  | 0, _ => none
  | fuel + 1, st =>
    let st1 := skipWSC st
    if st1.rest = [] ∨ peekC st1 = '\x7d' then some (.ok ([], st1))
    else
      match parseDeclaration st1 with
      | (.emptyD, st2) => parseDeclarations fuel st2
      | (.errD e, _) => some (.error e)
      | (.okD d, st2) =>
        match parseDeclarations fuel st2 with
        | none => none
        | some (.error e) => some (.error e)
        | some (.ok (ds, st3)) => some (.ok (d :: ds, st3))

/-- `p.parseRule()`. -/
def parseRule (fuel : ℕ) (st : PSt) : Option (Except ParseError (Rule × PSt)) :=
  match parseSelectors fuel st with
  | none => none
  | some (.error e) => some (.error e)
  | some (.ok ([], st1)) => some (.error (errAt st1 (("no selectors found").toList)))
  | some (.ok (sels@(_ :: _), st1)) =>
      let st2 := skipWSC st1
      if st2.rest = [] ∨ peekC st2 ≠ '\x7b' then
        some (.error (errAt st2 (("expected '\x7b'").toList)))
      else
        match parseDeclarations fuel (advance st2) with
        | none => none
        | some (.error e) => some (.error e)
        | some (.ok (decls, st3)) =>
          let st4 := skipWSC st3
          if st4.rest = [] ∨ peekC st4 ≠ '\x7d' then
            some (.error (errAt st4 (("expected '\x7d'").toList)))
          else some (.ok (⟨sels, decls⟩, advance st4))

/-- Core of `p.skipAtRule()`'s brace-block scan: characters consumed until
(and including) the brace closing the given depth. -/
def atScan : Str → ℕ → ℕ
  | [], _ => 0
  | c :: cs, depth =>
    let d' := if c = '\x7b' then depth + 1 else if c = '\x7d' then depth - 1 else depth
    if d' = 0 then 1 else 1 + atScan cs d'

/-- `p.skipAtRule()`. -/
def skipAtRule (st : PSt) : PSt :=
  let t := st.rest.takeWhile (fun c => !(c == ';' || c == '\x7b'))
  let st1 := advN st t.length
  if st1.rest = [] then st1
  else if peekC st1 = '\x7b' then
    let st2 := advance st1
    advN st2 (atScan st2.rest 1)
  else advance st1

/-- `p.parse()`, the top-level rule loop. -/
def parseTop : ℕ → PSt → Option (Except ParseError (List Rule))
  | 0, _ => none
  | fuel + 1, st =>
    let st1 := skipWSC st
    if st1.rest = [] then some (.ok [])
    else if peekC st1 = '@' then parseTop fuel (skipAtRule st1)
    else
      match parseRule fuel st1 with
      | none => none
      | some (.error e) => some (.error e)
      | some (.ok (rule, st2)) =>
        match parseTop fuel st2 with
        | none => none
        | some (.error e) => some (.error e)
        | some (.ok rules) => some (.ok (rule :: rules))

/-- `ParseMapCSS(input)`, under a fuel budget. -/
def ParseMapCSS (fuel : ℕ) (input : Str) : Option (Except ParseError Stylesheet) :=
  (parseTop fuel ⟨input, 1, 1⟩).map (fun r => r.map Stylesheet.mk)

/-! ## The turbo macro expander (turbo.go, geocoder.go)

Environment-dependent leaves are injected through `Options`:

* `renderFloat` stands for `strconv.FormatFloat(v, 'f', -1, 64)` — the
  shortest-round-trip decimal renderer, a pure Go-library function none of
  the claims constrain;
* `dateEnv` stands for the wall clock plus `time` formatting/calendar
  arithmetic used by the `{{date}}` macro (`time.Now`, `Format(RFC3339Nano)`,
  `Add`, `AddDate` — again Go-library behaviour outside every claim).

Both are universally quantified in the theorems below. -/

structure BBoxQ where
  south : ℚ
  west : ℚ
  north : ℚ
  east : ℚ
  deriving DecidableEq, Repr

structure CenterQ where
  lat : ℚ
  lon : ℚ
  deriving DecidableEq, Repr

inductive QueryFormat where
  | auto | ql | xml
  deriving DecidableEq, Repr

inductive DateUnit where
  | second | minute | hour | day | week | month | year
  deriving DecidableEq, Repr

structure DateEnv where
  nowRendered : Str
  agoRendered : ℤ → DateUnit → Str

/-- geocoder.go `GeocodeResult` (int64 fields as integers). -/
structure GeocodeResult where
  osmType : Str
  osmId : ℤ
  areaId : ℤ
  bbox : Option BBoxQ := none
  center : Option CenterQ := none

/-- turbo.go `Options`.  The pluggable `Geocoder` is a function returning
a result or an error (the error payload, only ever wrapped into a message,
is dropped). -/
structure Options where
  bbox : Option BBoxQ := none
  center : Option CenterQ := none
  shortcuts : List (Str × Str) := []
  geocoder : Option (Str → Except Unit GeocodeResult) := none
  format : QueryFormat := .auto
  dateEnv : DateEnv := ⟨[], fun _ _ => []⟩
  renderFloat : ℚ → Str := fun _ => []

structure DataOptions where
  server : Str := []
  params : List (Str × Str) := []
  deriving DecidableEq, Repr

/-- `DataSource`.  Go's option map is modelled as an insertion list where
a later insertion shadows an earlier one (`lookupStr` takes the first hit,
and inserts prepend). -/
structure DataSource where
  mode : Str
  options : List (Str × Str)
  parsed : DataOptions
  deriving DecidableEq, Repr

structure Result where
  query : Str := []
  style : Str := []
  styles : List Str := []
  parsedStyles : List (Option Stylesheet) := []
  data : Option DataSource := none
  endpointOverride : Str := []
  dataServer : Str := []

inductive ExpErr where
  | missingBBox | missingCenter | missingGeocoder | geocodeData
  | badMacroErr | geocodeFailed | dataSourceErr
  deriving DecidableEq, Repr

/-- Two's-complement wraparound of 64-bit signed addition results. -/
def wrap64 (x : ℤ) : ℤ := (x + 2 ^ 63) % 2 ^ 64 - 2 ^ 63

/-- `detectFormat`. -/
def detectFormat (query : Str) (format : QueryFormat) : QueryFormat :=
  if format ≠ .auto then format
  else if containsSub query (("<osm-script").toList) ∨ containsSub query (("<query").toList) then .xml
  else .ql

/-- `formatBBox`. -/
def formatBBox (b : BBoxQ) (format : QueryFormat) (rf : ℚ → Str) : Str :=
  match format with
  | .xml =>
    ("s=\"").toList ++ rf b.south ++ ("\" w=\"").toList ++ rf b.west ++
    ("\" n=\"").toList ++ rf b.north ++ ("\" e=\"").toList ++ rf b.east ++ ['"']
  | _ => rf b.south ++ [','] ++ rf b.west ++ [','] ++ rf b.north ++ [','] ++ rf b.east

/-- `formatCenter`. -/
def formatCenter (c : CenterQ) (format : QueryFormat) (rf : ℚ → Str) : Str :=
  match format with
  | .xml => ("lat=\"").toList ++ rf c.lat ++ ("\" lon=\"").toList ++ rf c.lon ++ ['"']
  | _ => rf c.lat ++ [','] ++ rf c.lon

/-- `parseShortcutDefinition(content)`. -/
def parseShortcutDefinition (content : Str) : Option (Str × Str) :=
  if isPre (("data:").toList) (trimSpace content) ∨
     isPre (("style:").toList) (trimSpace content) then none
  else
    match splitOnce '=' content with
    | (_, none) => none
    | (a, some b) =>
      let name := trimSpace a
      if name = [] ∨ ':' ∈ name then none
      else some (name, trimSpace b)

/-- `normalizeEndpoint(raw)`. -/
def normalizeEndpoint (raw : Str) : Str :=
  let trimmed0 := trimSpace raw
  if trimmed0 = [] then []
  else
    let trimmed := goTrimSuf trimmed0 ['/']
    if isSuf (("/api").toList) trimmed then trimmed ++ ("/interpreter").toList
    else if isSuf (("/api/interpreter").toList) trimmed then trimmed
    else if containsSub trimmed (("/api/interpreter").toList) then trimmed
    else if isSuf (("/api/").toList) trimmed then
      goTrimSuf trimmed ['/'] ++ ("/interpreter").toList
    else trimmed

/-- `parseDataSource(raw)`: mode, then comma-separated `key=value` options. -/
def parseDataSource (raw : Str) : Except ExpErr DataSource :=
  let r := trimSpace raw
  if r = [] then .error .badMacroErr
  else
    match r.splitOn ',' with
    | [] => .error .badMacroErr
    | m :: parts =>
      let mode := trimSpace m
      if mode = [] then .error .badMacroErr
      else
        let step (acc : Except ExpErr (List (Str × Str) × DataOptions)) (part : Str) :
            Except ExpErr (List (Str × Str) × DataOptions) :=
          match acc with
          | .error e => .error e
          | .ok (options, parsed) =>
            let p := trimSpace part
            if p = [] then .ok (options, parsed)
            else
              match splitOnce '=' p with
              | (_, none) => .error .badMacroErr
              | (k, some v) =>
                let key := trimSpace k
                if key = [] then .error .badMacroErr
                else
                  let value := trimSpace v
                  let options' := (key, value) :: options
                  if key = ("server").toList then
                    .ok (options', { parsed with server := value })
                  else
                    .ok (options', { parsed with params := (key, value) :: parsed.params })
        match parts.foldl step (.ok ([], {})) with
        | .error e => .error e
        | .ok (options, parsed) => .ok ⟨mode, options, parsed⟩

/-- `parseRelativeDuration(raw)`. -/
def parseRelativeDuration (raw : Str) : Option (ℤ × DateUnit) :=
  match goFields raw with
  | [f0, f1] =>
    match goAtoi f0 with
    | none => none
    | some v =>
      if v < 0 then none
      else
        let unit := goToLower f1
        if unit = ("second").toList ∨ unit = ("seconds").toList then some (v, .second)
        else if unit = ("minute").toList ∨ unit = ("minutes").toList then some (v, .minute)
        else if unit = ("hour").toList ∨ unit = ("hours").toList then some (v, .hour)
        else if unit = ("day").toList ∨ unit = ("days").toList then some (v, .day)
        else if unit = ("week").toList ∨ unit = ("weeks").toList then some (v, .week)
        else if unit = ("month").toList ∨ unit = ("months").toList then some (v, .month)
        else if unit = ("year").toList ∨ unit = ("years").toList then some (v, .year)
        else none
  | _ => none

/-- `expandDate(content, now)`: macro-shape handling is exact; the final
formatted instant comes from the injected date environment. -/
def expandDate (content : Str) (env : DateEnv) : Except ExpErr Str :=
  let raw := trimSpace (goTrimPre content (("date").toList))
  if raw = [] then .ok env.nowRendered
  else if ¬ isPre [':'] raw then .error .badMacroErr
  else
    let raw2 := trimSpace (goTrimPre raw [':'])
    if raw2 = [] then .error .badMacroErr
    else
      match parseRelativeDuration raw2 with
      | none => .error .badMacroErr
      | some (v, u) => .ok (env.agoRendered v u)

/-! ### geocoder.go -/

/-- `normalizeOSMType(t)`. -/
def normalizeOSMType (t : Str) : Option Str :=
  let l := goToLower (trimSpace t)
  if l = ("node").toList then some (("node").toList)
  else if l = ("way").toList then some (("way").toList)
  else if l = ("relation").toList then some (("relation").toList)
  else none

/-- `deriveAreaID(result)`; the int64 additions wrap. -/
def deriveAreaID (r : GeocodeResult) : Except ExpErr ℤ :=
  match normalizeOSMType r.osmType with
  | none => .error .geocodeData
  | some t =>
    if r.osmId ≤ 0 then .error .geocodeData
    else if t = ("relation").toList then .ok (wrap64 (3600000000 + r.osmId))
    else if t = ("way").toList then .ok (wrap64 (2400000000 + r.osmId))
    else .error .geocodeData

/-- `expandGeocodeID(result, format)`. -/
def expandGeocodeID (r : GeocodeResult) (format : QueryFormat) : Except ExpErr Str :=
  match normalizeOSMType r.osmType with
  | none => .error .geocodeData
  | some typeStr =>
    if r.osmId ≤ 0 then .error .geocodeData
    else if format = .xml then
      .ok (("type=\"").toList ++ typeStr ++ ("\" ref=\"").toList ++ decInt r.osmId ++ ['"'])
    else .ok (typeStr ++ ['('] ++ decInt r.osmId ++ [')'])

/-- `expandGeocodeArea(result, format)`. -/
def expandGeocodeArea (r : GeocodeResult) (format : QueryFormat) : Except ExpErr Str :=
  let idE : Except ExpErr ℤ := if r.areaId = 0 then deriveAreaID r else .ok r.areaId
  match idE with
  | .error e => .error e
  | .ok areaID =>
    if format = .xml then
      .ok (("type=\"area\" ref=\"").toList ++ decInt areaID ++ ['"'])
    else .ok (("area(").toList ++ decInt areaID ++ [')'])

/-- `expandGeocodeBbox(result, format)`. -/
def expandGeocodeBbox (r : GeocodeResult) (format : QueryFormat) (rf : ℚ → Str) :
    Except ExpErr Str :=
  match r.bbox with
  | none => .error .geocodeData
  | some b => .ok (formatBBox b format rf)

/-- `expandGeocodeCoords(result, format)`. -/
def expandGeocodeCoords (r : GeocodeResult) (format : QueryFormat) (rf : ℚ → Str) :
    Except ExpErr Str :=
  match r.center with
  | none => .error .geocodeData
  | some c => .ok (formatCenter c format rf)

/-- `parseGeocodeMacro(content)`. -/
def parseGeocodeMacroContent (content : Str) : Option (Str × Str) :=
  match splitOnce ':' content with
  | (_, none) => none
  | (a, some b) =>
    let kind := trimSpace a
    let query := trimSpace b
    if kind = [] ∨ query = [] then none
    else if kind = ("geocodeId").toList ∨ kind = ("geocodeArea").toList ∨
            kind = ("geocodeBbox").toList ∨ kind = ("geocodeCoords").toList then
      some (kind, query)
    else none

/-- `expandGeocode(content, opts, format)`. -/
def expandGeocode (content : Str) (opts : Options) (format : QueryFormat) :
    Except ExpErr Str :=
  match opts.geocoder with
  | none => .error .missingGeocoder
  | some geocode =>
    match parseGeocodeMacroContent content with
    | none => .error .badMacroErr
    | some (kind, query) =>
      match geocode query with
      | .error _ => .error .geocodeFailed
      | .ok result =>
        if kind = ("geocodeId").toList then expandGeocodeID result format
        else if kind = ("geocodeArea").toList then expandGeocodeArea result format
        else if kind = ("geocodeBbox").toList then expandGeocodeBbox result format opts.renderFloat
        else if kind = ("geocodeCoords").toList then expandGeocodeCoords result format opts.renderFloat
        else .error .badMacroErr

/-! ### Macro scanning and substitution (scanMacros / replaceMacros / Expand) -/

theorem isPre_eq_append (p s : Str) (h : isPre p s = true) :
    s = p ++ s.drop p.length := by
  induction p generalizing s with
  | nil => simp
  | cons a ps ih =>
    cases s with
    | nil => simp [isPre] at h
    | cons c cs =>
      simp only [isPre, Bool.and_eq_true, beq_iff_eq] at h
      obtain ⟨h1, h2⟩ := h
      subst h1
      simpa using ih cs h2

theorem splitFirst_some_eq {pat s a b : Str} (h : splitFirst pat s = some (a, b)) :
    s = a ++ pat ++ b := by
  induction s generalizing a b with
  | nil =>
    by_cases hp : isPre pat [] = true
    · have : pat = [] := by
        have := isPre_eq_append pat [] hp; simpa using this.symm
      simp [splitFirst, hp, this] at h ⊢
      simp [h.1.symm, h.2.symm, this]
    · simp [splitFirst, hp] at h
  | cons c cs ih =>
    by_cases hp : isPre pat (c :: cs) = true
    · simp [splitFirst, hp] at h
      obtain ⟨ha, hb⟩ := h
      subst ha; subst hb
      simpa using isPre_eq_append pat (c :: cs) hp
    · simp only [splitFirst, hp, if_neg] at h
      rcases hsp : splitFirst pat cs with _ | ⟨p, q⟩
      · simp [hsp] at h
      · simp [hsp] at h
        obtain ⟨ha, hb⟩ := h
        subst ha; subst hb
        simpa using ih hsp

theorem splitFirst_lengths {pat s a b : Str} (h : splitFirst pat s = some (a, b)) :
    s.length = a.length + pat.length + b.length := by
  have := splitFirst_some_eq h
  subst this; simp; omega

def openBrace : Str := ('\x7b' :: ['\x7b'])
def closeBrace : Str := ('\x7d' :: ['\x7d'])

/-- The shortcut pre-scan: `scanMacros` collecting `parseShortcutDefinition`
hits into the shortcuts table (later definitions shadow earlier ones since
lookups take the most recent insertion; an unterminated `\x7b\x7b` is the
bad-macro error).  Structural iteration budget: every iteration removes at
least the four delimiter characters, so the budget `s.length` used by
`scanDefs` is provably never exhausted (`scanDefsGo_congr`). -/
def scanDefsGo : ℕ → Str → List (Str × Str) → Except ExpErr (List (Str × Str))
  | 0, _, sh => .ok sh
  | n + 1, s, sh =>
    match splitFirst openBrace s with
    | none => .ok sh
    | some (_, r1) =>
      match splitFirst closeBrace r1 with
      | none => .error .badMacroErr
      | some (content, after) =>
        scanDefsGo n after
          (match parseShortcutDefinition content with
            | some (nm, v) => (nm, v) :: sh
            | none => sh)

def scanDefs (s : Str) (sh : List (Str × Str)) : Except ExpErr (List (Str × Str)) :=
  scanDefsGo s.length s sh

theorem scanDefsGo_congr : ∀ n m s sh, s.length ≤ n → s.length ≤ m →
    scanDefsGo n s sh = scanDefsGo m s sh := by
  intro n
  induction n with
  | zero =>
    intro m s sh hn _
    have he : s = [] := List.length_eq_zero.mp (Nat.le_zero.mp hn)
    subst he
    cases m with
    | zero => rfl
    | succ m => rfl
  | succ n ih =>
    intro m s sh hn hm
    cases m with
    | zero =>
      have he : s = [] := List.length_eq_zero.mp (Nat.le_zero.mp hm)
      subst he; rfl
    | succ m =>
      rw [scanDefsGo, scanDefsGo]
      rcases h1 : splitFirst openBrace s with _ | ⟨pre, r1⟩
      · rfl
      · dsimp only
        rcases h2 : splitFirst closeBrace r1 with _ | ⟨content, after⟩
        · rfl
        · dsimp only
          have l1 := splitFirst_lengths h1
          have l2 := splitFirst_lengths h2
          simp [openBrace, closeBrace] at l1 l2
          exact ih m after _ (by omega) (by omega)

/-- `replaceMacros(query, replace)`: the substitution pass, threading the
metadata accumulated in the `Result`.  Same structural-budget scheme as
`scanDefsGo` (see `replaceGo_congr`). -/
def replaceGo (h : Str → Result → Option (Except ExpErr (Str × Result))) :
    ℕ → Str → Result → Option (Except ExpErr (Str × Result))
  | 0, s, rs => some (.ok (s, rs))
  | n + 1, s, rs =>
    match splitFirst openBrace s with
    | none => some (.ok (s, rs))
    | some (pre, r1) =>
      match splitFirst closeBrace r1 with
      | none => some (.error .badMacroErr)
      | some (content, after) =>
        match h content rs with
        | none => none
        | some (.error e) => some (.error e)
        | some (.ok (rep, rs')) =>
          match replaceGo h n after rs' with
          | none => none
          | some (.error e) => some (.error e)
          | some (.ok (tail, rs'')) => some (.ok (pre ++ rep ++ tail, rs''))

def replaceMacros (h : Str → Result → Option (Except ExpErr (Str × Result)))
    (s : Str) (rs : Result) : Option (Except ExpErr (Str × Result)) :=
  replaceGo h s.length s rs

theorem replaceGo_congr (h : Str → Result → Option (Except ExpErr (Str × Result))) :
    ∀ n m s rs, s.length ≤ n → s.length ≤ m →
    replaceGo h n s rs = replaceGo h m s rs := by
  intro n
  induction n with
  | zero =>
    intro m s rs hn _
    have he : s = [] := List.length_eq_zero.mp (Nat.le_zero.mp hn)
    subst he
    cases m with
    | zero => rfl
    | succ m => rfl
  | succ n ih =>
    intro m s rs hn hm
    cases m with
    | zero =>
      have he : s = [] := List.length_eq_zero.mp (Nat.le_zero.mp hm)
      subst he; rfl
    | succ m =>
      rw [replaceGo, replaceGo]
      rcases h1 : splitFirst openBrace s with _ | ⟨pre, r1⟩
      · rfl
      · dsimp only
        rcases h2 : splitFirst closeBrace r1 with _ | ⟨content, after⟩
        · rfl
        · dsimp only
          have l1 := splitFirst_lengths h1
          have l2 := splitFirst_lengths h2
          simp [openBrace, closeBrace] at l1 l2
          rcases h content rs with _ | e | ⟨rep, rs'⟩
          · rfl
          · rfl
          · dsimp only
            rw [ih m after _ (by omega) (by omega)]

/-- The macro-replacement closure passed by `Expand` to `replaceMacros`. -/
def handleMacro (fuel : ℕ) (opts : Options) (format : QueryFormat)
    (sh : List (Str × Str)) (content0 : Str) (rs : Result) :
    Option (Except ExpErr (Str × Result)) :=
  let content := trimSpace content0
  if content = [] then some (.error .badMacroErr)
  else if (parseShortcutDefinition content).isSome then some (.ok ([], rs))
  else if isPre (("style:").toList) content then
    let style := trimSpace (goTrimPre content (("style:").toList))
    let rs1 := { rs with style := style }
    if style ≠ [] then
      match ParseMapCSS fuel style with
      | none => none
      | some (.ok parsed) =>
        some (.ok ([], { rs1 with styles := rs1.styles ++ [style],
                                  parsedStyles := rs1.parsedStyles ++ [some parsed] }))
      | some (.error _) =>
        some (.ok ([], { rs1 with styles := rs1.styles ++ [style],
                                  parsedStyles := rs1.parsedStyles ++ [none] }))
    else some (.ok ([], rs1))
  else if isPre (("data:").toList) content then
    match parseDataSource (goTrimPre content (("data:").toList)) with
    | .error e => some (.error e)
    | .ok dataSrc =>
      let rs1 := { rs with data := some dataSrc }
      let rs2 :=
        match lookupStr dataSrc.options (("server").toList) with
        | some server => { rs1 with dataServer := server }
        | none => rs1
      let rs3 :=
        if equalFold dataSrc.mode (("overpass").toList) then
          match lookupStr dataSrc.options (("server").toList) with
          | some server => { rs2 with endpointOverride := normalizeEndpoint server }
          | none => rs2
        else rs2
      some (.ok ([], rs3))
  else if isPre (("geocode").toList) content then
    match expandGeocode content opts format with
    | .error e => some (.error e)
    | .ok s => some (.ok (s, rs))
  else if content = ("bbox").toList then
    match opts.bbox with
    | none => some (.error .missingBBox)
    | some b => some (.ok (formatBBox b format opts.renderFloat, rs))
  else if content = ("center").toList then
    match opts.center with
    | none => some (.error .missingCenter)
    | some c => some (.ok (formatCenter c format opts.renderFloat, rs))
  else if isPre (("date").toList) content then
    match expandDate content opts.dateEnv with
    | .error e => some (.error e)
    | .ok t => some (.ok (t, rs))
  else
    match lookupStr sh content with
    | some v => some (.ok (v, rs))
    | none => some (.error .badMacroErr)

/-- `Expand(query, opts)` under a fuel budget for the stylesheet parser
(`none` exactly when a `\x7b\x7bstyle:…\x7d\x7d` body makes `ParseMapCSS`
exceed the budget).  The return mirrors Go's `(Result, error)` pair: both
error paths return the zero `Result` alongside the error. -/
def Expand (fuel : ℕ) (query : Str) (opts : Options) :
    Option (Result × Option ExpErr) :=
  let format := detectFormat query opts.format
  match scanDefs query opts.shortcuts with
  | .error e => some ({}, some e)
  | .ok sh =>
    match replaceMacros (handleMacro fuel opts format sh) query {} with
    | none => none
    | some (.error e) => some ({}, some e)
    | some (.ok (expanded, rs)) => some ({ rs with query := expanded }, none)

/-- The per-style outcome recorded in `ParsedStyles`: the stylesheet when
`ParseMapCSS` succeeds, `none` when it reports a parse error (or the fuel
budget runs out, in which case `Expand` itself returns `none`). -/
def styleParse (fuel : ℕ) (s : Str) : Option Stylesheet :=
  match ParseMapCSS fuel s with
  | some (.ok ss) => some ss
  | _ => none

/-- The shortcut-definition span condition exactly as the spec words it:
content not prefixed (after trimming) with `data:` or `style:`, containing
EXACTLY ONE `=`, which splits it into a non-empty key without `:` and a
value. -/
def isShortcutDefinitionSpec (content : Str) : Bool :=
  !isPre (("data:").toList) (trimSpace content) &&
  !isPre (("style:").toList) (trimSpace content) &&
  decide (content.count '=' = 1) &&
  (let name := trimSpace (content.takeWhile (fun c => c ≠ '='))
   decide (name ≠ []) && decide (':' ∉ name))

/-- The amended span condition: at least one `=`, split at the FIRST `=`
(so values may themselves contain `=`), key trimmed, non-empty and
`:`-free. -/
def isShortcutDefinitionAmended (content : Str) : Bool :=
  !isPre (("data:").toList) (trimSpace content) &&
  !isPre (("style:").toList) (trimSpace content) &&
  decide ('=' ∈ content) &&
  (let name := trimSpace (content.takeWhile (fun c => c ≠ '='))
   decide (name ≠ []) && decide (':' ∉ name))

/-! ## Support lemmas for the float model -/

theorem pow2Q_eq (z : ℤ) : pow2Q z = (2 : ℚ) ^ z := by
  cases z with
  | ofNat n => simp [pow2Q, zpow_natCast]
  | negSucc n => simp [pow2Q, zpow_negSucc, one_div]

theorem pow2Q_pos (z : ℤ) : 0 < pow2Q z := by
  rw [pow2Q_eq]; positivity

theorem pow2Q_mul_neg (z : ℤ) : pow2Q z * pow2Q (-z) = 1 := by
  rw [pow2Q_eq, pow2Q_eq, ← zpow_add₀ (two_ne_zero : (2 : ℚ) ≠ 0)]
  simp

theorem rhe_le (x : ℚ) : (rhe x : ℚ) ≤ x + 1 / 2 := by
  unfold rhe
  dsimp only
  have hfl : (⌊x⌋ : ℚ) ≤ x := Int.floor_le x
  have hfr : x - 1 < (⌊x⌋ : ℚ) := Int.sub_one_lt_floor x
  split_ifs with h1 h2 h3 <;> push_cast <;> linarith

theorem rhe_nonneg (x : ℚ) (h : 0 ≤ x) : 0 ≤ rhe x := by
  have h0 : (0 : ℤ) ≤ ⌊x⌋ := Int.floor_nonneg.mpr h
  unfold rhe
  dsimp only
  split_ifs <;> omega

theorem log2ge1_le : ∀ (f k : ℕ) (s : ℚ), s < 2 ^ (k + 1) → log2ge1 f s ≤ k := by
  intro f
  induction f with
  | zero => intro k s _; simp [log2ge1]
  | succ n ih =>
    intro k s h
    rw [log2ge1]
    split_ifs with h2
    · cases k with
      | zero =>
        exfalso
        have : (2 : ℚ) ^ (0 + 1) = 2 := by norm_num
        rw [this] at h
        linarith
      | succ k =>
        have hdiv : s / 2 < 2 ^ (k + 1) := by
          have : (2 : ℚ) ^ (k + 1 + 1) = 2 ^ (k + 1) * 2 := by ring
          rw [this] at h
          linarith
        have := ih (k) (s / 2) hdiv
        omega
    · omega

theorem binExp_le (s : ℚ) (k : ℕ) (h : s < 2 ^ (k + 1)) : binExp s ≤ k := by
  unfold binExp
  split_ifs with h1
  · exact_mod_cast log2ge1_le 1500 k s h
  · have : (0 : ℤ) ≤ k := Int.ofNat_nonneg k
    omega

theorem fl64_nonneg (q : ℚ) (h : 0 ≤ q) : 0 ≤ fl64 q := by
  unfold fl64
  split_ifs with h0 hneg
  · rfl
  · exact absurd hneg (not_lt.mpr h)
  · dsimp only
    rw [abs_of_nonneg h, one_mul]
    have hm : 0 ≤ rhe (q * pow2Q (52 - binExp q)) :=
      rhe_nonneg _ (mul_nonneg h (le_of_lt (pow2Q_pos _)))
    have hmq : (0 : ℚ) ≤ (rhe (q * pow2Q (52 - binExp q)) : ℚ) := by exact_mod_cast hm
    exact mul_nonneg hmq (le_of_lt (pow2Q_pos _))

theorem fl64_lt_256 (q : ℚ) (h0 : 0 ≤ q) (h : q ≤ 255) : fl64 q < 256 := by
  unfold fl64
  split_ifs with hz hneg
  · norm_num
  · exact absurd hneg (not_lt.mpr h0)
  · dsimp only
    rw [abs_of_nonneg h0, one_mul]
    set e := binExp q with he
    have hek : e ≤ 7 := by
      have h8 : q < 2 ^ (7 + 1) := by norm_num; linarith
      exact binExp_le q 7 h8
    have hrhe : (rhe (q * pow2Q (52 - e)) : ℚ) ≤ q * pow2Q (52 - e) + 1 / 2 :=
      rhe_le _
    have hpow : 0 < pow2Q (e - 52) := pow2Q_pos _
    have hinv : pow2Q (52 - e) * pow2Q (e - 52) = 1 := by
      have := pow2Q_mul_neg (52 - e)
      simpa [neg_sub] using this
    have hle1 : pow2Q (e - 52) ≤ 1 := by
      rw [pow2Q_eq]
      calc (2 : ℚ) ^ (e - 52) ≤ 2 ^ (0 : ℤ) :=
            zpow_le_zpow_right₀ one_le_two (by omega)
        _ = 1 := by norm_num
    calc (rhe (q * pow2Q (52 - e)) : ℚ) * pow2Q (e - 52)
        ≤ (q * pow2Q (52 - e) + 1 / 2) * pow2Q (e - 52) :=
          mul_le_mul_of_nonneg_right hrhe (le_of_lt hpow)
      _ = q * (pow2Q (52 - e) * pow2Q (e - 52)) + pow2Q (e - 52) / 2 := by ring
      _ = q + pow2Q (e - 52) / 2 := by rw [hinv]; ring
      _ ≤ 255 + 1 / 2 := by linarith
      _ < 256 := by norm_num

theorem truncQ_bounds (q : ℚ) (h0 : 0 ≤ q) (h : q < 256) :
    0 ≤ truncQ q ∧ truncQ q ≤ 255 := by
  unfold truncQ
  rw [if_pos h0]
  constructor
  · exact Int.floor_nonneg.mpr h0
  · have : (⌊q⌋ : ℚ) ≤ q := Int.floor_le q
    have h256 : ⌊q⌋ < 256 := by
      by_contra hc
      push_neg at hc
      have : (256 : ℚ) ≤ (⌊q⌋ : ℚ) := by exact_mod_cast hc
      linarith
    omega

set_option maxRecDepth 4000 in
theorem toDigits16_len : ∀ n : ℕ, n ≤ 255 →
    1 ≤ (Nat.toDigits 16 n).length ∧ (Nat.toDigits 16 n).length ≤ 2 := by decide

theorem fmt02x_len2 (v : ℤ) (h0 : 0 ≤ v) (h : v ≤ 255) : (fmt02x v).length = 2 := by
  unfold fmt02x padZeroLeft
  rw [if_pos h0]
  have hv : v.toNat ≤ 255 := by omega
  have := toDigits16_len v.toNat hv
  simp only [List.length_append, List.length_replicate]
  omega

theorem hexChan_len2 (x : ℚ) (h0 : 0 ≤ x) (h1 : x ≤ 1) :
    (fmt02x (truncQ (fl64 (x * 255)))).length = 2 := by
  have ha : 0 ≤ x * 255 := by linarith
  have hb : x * 255 ≤ 255 := by linarith
  have h2 := truncQ_bounds (fl64 (x * 255)) (fl64_nonneg _ ha) (fl64_lt_256 _ ha hb)
  exact fmt02x_len2 _ h2.1 h2.2

/-! ## Claims -/

/-! ### C2: totality of `ParseMapCSS`

The input `way\x7b;\x7d` sends `parseDeclarations` into an infinite loop:
`parseDeclaration` returns `ErrEmptyDeclaration` at `;` without consuming
anything and the loop `continue`s.  Under the fuel embedding this reads:
every fuel budget is exhausted. -/

/-- The input `way\x7b;\x7d`. -/
def semiInput : Str := ("way\x7b;\x7d").toList

/-- Parser state at the `;` inside the block of `semiInput`. -/
def stSemi : PSt := ⟨(";\x7d").toList, 1, 5⟩

theorem declLoop_stuck : ∀ f, parseDeclarations f stSemi = none := by
  intro f
  induction f with
  | zero => rfl
  | succ n ih =>
    exact (show parseDeclarations (n + 1) stSemi = parseDeclarations n stSemi from rfl).trans ih

theorem parseRule_semiInput_none : ∀ f, parseRule f ⟨semiInput, 1, 1⟩ = none := by
  intro f
  match f with
  | 0 => rfl
  | 1 => rfl
  | 2 => rfl
  | (k + 3) =>
    have h1 : parseRule (k + 3) ⟨semiInput, 1, 1⟩ =
        (match parseDeclarations (k + 3) stSemi with
          | none => none
          | some (.error e) => some (.error e)
          | some (.ok (decls, st3)) =>
            let st4 := skipWSC st3
            if st4.rest = [] ∨ peekC st4 ≠ '\x7d' then
              some (.error (errAt st4 (("expected '\x7d'").toList)))
            else some (.ok (⟨[.mk (("way").toList) [] 0 0 [] [] [] none], decls⟩, advance st4))) :=
      rfl
    rw [h1, declLoop_stuck]

/-! ### C5: `Color.Hex` quantization

The spec says `Hex` re-quantizes via `round(channel*255)`; the code uses
Go's truncating float-to-int conversion `int(c.R * 255)`.  At alpha `0.5`
these disagree (`0x7f` vs `0x80`); the code's own test table expects
`#ff00007f`, so the code is self-consistent and the spec wording is off. -/

/-- `math.Round`-style rounding (half away from zero). -/
def roundQ (x : ℚ) : ℤ :=
  if 0 ≤ x then ⌊x + 1 / 2⌋ else -⌊-x + 1 / 2⌋

/-- The hex renderer as C5's first clause words it: each channel
re-quantized via `round(channel*255)` (spec-side definition, for
comparison against `Color.Hex`). -/
def hexSpecRound (c : Color) : Str :=
  if c.a = 1 then
    '#' :: (fmt02x (roundQ (c.r * 255)) ++ fmt02x (roundQ (c.g * 255)) ++
            fmt02x (roundQ (c.b * 255)))
  else
    '#' :: (fmt02x (roundQ (c.r * 255)) ++ fmt02x (roundQ (c.g * 255)) ++
            fmt02x (roundQ (c.b * 255)) ++ fmt02x (roundQ (c.a * 255)))

/-- C5, counterexample: at `Color{1, 0, 0, 0.5}` the code renders
`#ff00007f` (truncation), not the `#ff000080` that `round(channel*255)`
would give — matching the code's own `TestColorHex` expectation. -/
theorem colorHex_round_counterexample :
    Color.Hex ⟨1, 0, 0, 1/2⟩ = ("#ff00007f").toList ∧
    hexSpecRound ⟨1, 0, 0, 1/2⟩ = ("#ff000080").toList ∧
    Color.Hex ⟨1, 0, 0, 1/2⟩ ≠ hexSpecRound ⟨1, 0, 0, 1/2⟩ := by
  refine ⟨by decide, by decide, by decide⟩

/-- C5 (amended: quantization is `int(channel*255)`, Go's truncation toward
zero after the float64 multiply, not `round`): the alpha-suffix rule is as
claimed — alpha exactly 1 renders six hex digits and no alpha suffix,
alpha below 1 appends a two-digit hex alpha suffix. -/
theorem colorHex_trunc_and_alpha_suffix (c : Color) :
    (c.a = 1 → Color.Hex c =
      '#' :: (fmt02x (truncQ (fl64 (c.r * 255))) ++ fmt02x (truncQ (fl64 (c.g * 255))) ++
              fmt02x (truncQ (fl64 (c.b * 255))))) ∧
    (c.a < 1 → Color.Hex c =
      '#' :: (fmt02x (truncQ (fl64 (c.r * 255))) ++ fmt02x (truncQ (fl64 (c.g * 255))) ++
              fmt02x (truncQ (fl64 (c.b * 255))) ++ fmt02x (truncQ (fl64 (c.a * 255))))) ∧
    (0 ≤ c.r → c.r ≤ 1 → 0 ≤ c.g → c.g ≤ 1 → 0 ≤ c.b → c.b ≤ 1 →
      (c.a = 1 → (Color.Hex c).length = 7) ∧
      (0 ≤ c.a → c.a < 1 → (Color.Hex c).length = 9)) := by
  refine ⟨?_, ?_, ?_⟩
  · intro ha
    unfold Color.Hex
    rw [if_pos ha]
  · intro ha
    unfold Color.Hex
    rw [if_neg (by intro h; rw [h] at ha; exact lt_irrefl 1 ha)]
  · intro hr0 hr1 hg0 hg1 hb0 hb1
    constructor
    · intro ha
      unfold Color.Hex
      rw [if_pos ha]
      simp only [List.length_cons, List.length_append]
      rw [hexChan_len2 c.r hr0 hr1, hexChan_len2 c.g hg0 hg1, hexChan_len2 c.b hb0 hb1]
    · intro ha0 ha1
      unfold Color.Hex
      rw [if_neg (by intro h; rw [h] at ha1; exact lt_irrefl 1 ha1)]
      simp only [List.length_cons, List.length_append]
      rw [hexChan_len2 c.r hr0 hr1, hexChan_len2 c.g hg0 hg1, hexChan_len2 c.b hb0 hb1,
          hexChan_len2 c.a ha0 (le_of_lt ha1)]

/-- C5, witness: the amended theorem applied at `Color{1,0,0,1}` and
`Color{1,0,0,0.5}`. -/
theorem colorHex_trunc_and_alpha_suffix_witness :
    Color.Hex ⟨1, 0, 0, 1⟩ =
      '#' :: (fmt02x (truncQ (fl64 ((1 : ℚ) * 255))) ++ fmt02x (truncQ (fl64 ((0 : ℚ) * 255))) ++
              fmt02x (truncQ (fl64 ((0 : ℚ) * 255)))) ∧
    (Color.Hex ⟨1, 0, 0, 1⟩).length = 7 ∧
    (Color.Hex ⟨1, 0, 0, 1/2⟩).length = 9 :=
  ⟨(colorHex_trunc_and_alpha_suffix ⟨1, 0, 0, 1⟩).1 rfl,
   ((colorHex_trunc_and_alpha_suffix ⟨1, 0, 0, 1⟩).2.2 (by decide) (by decide)
      (by decide) (by decide) (by decide) (by decide)).1 rfl,
   ((colorHex_trunc_and_alpha_suffix ⟨1, 0, 0, 1/2⟩).2.2 (by decide) (by decide)
      (by decide) (by decide) (by decide) (by decide)).2 (by decide) (by decide)⟩

/-! ### C6: hex color round-trip

The binary64 core fact, checked exhaustively over the 256 channel values:
`int(fl(fl(n/255)·255))` recovers `n`, so parse-then-`Hex` round-trips,
and the parsed channel lies in `[0,1]` hitting `1` only at `n = 255`. -/

set_option maxRecDepth 200000 in
set_option maxHeartbeats 4000000 in
theorem hexChanRoundtrip : ∀ n : ℕ, n < 256 →
    fmt02x (truncQ (fl64 (fl64 ((n : ℚ) / 255) * 255))) = fmt02x (n : ℤ) ∧
    0 ≤ fl64 ((n : ℚ) / 255) ∧ fl64 ((n : ℚ) / 255) ≤ 1 ∧
    (fl64 ((n : ℚ) / 255) = 1 ↔ n = 255) := by decide

theorem goTrimPre_hash (r : Char) (rest : Str) (hne : ¬ ('#' == r) = true) :
    goTrimPre (r :: rest) ['#'] = r :: rest := by
  unfold goTrimPre
  rw [if_neg]
  simp [isPre, hne]

/-- C6: for every valid 3/4/6/8-hex-digit string, parsing to a `Color` and
rendering with `Hex()` round-trips: the output is `#` followed by the same
channel values as two lowercase hex digits each (short forms doubled,
`v ↦ 17·v`), with the alpha suffix present exactly when the parsed alpha
is below 1 (i.e. the alpha digits are not maximal). -/
theorem parseHex_hex_roundtrip :
    (∀ r g b : Char, isHexDigitB r = true → isHexDigitB g = true → isHexDigitB b = true →
      ∃ col : Color, parseHexColorValue [r, g, b] = .ok col ∧ col.a = 1 ∧
        Color.Hex col = '#' :: (fmt02x ((hexVal r * 17 : ℕ) : ℤ) ++ fmt02x ((hexVal g * 17 : ℕ) : ℤ) ++
          fmt02x ((hexVal b * 17 : ℕ) : ℤ)) ∧ (Color.Hex col).length = 7) ∧
    (∀ r g b a : Char, isHexDigitB r = true → isHexDigitB g = true →
        isHexDigitB b = true → isHexDigitB a = true →
      ∃ col : Color, parseHexColorValue [r, g, b, a] = .ok col ∧
        (col.a < 1 ↔ hexVal a < 15) ∧
        (hexVal a = 15 → Color.Hex col = '#' :: (fmt02x ((hexVal r * 17 : ℕ) : ℤ) ++
          fmt02x ((hexVal g * 17 : ℕ) : ℤ) ++ fmt02x ((hexVal b * 17 : ℕ) : ℤ)) ∧ (Color.Hex col).length = 7) ∧
        (hexVal a < 15 → Color.Hex col = '#' :: (fmt02x ((hexVal r * 17 : ℕ) : ℤ) ++
          fmt02x ((hexVal g * 17 : ℕ) : ℤ) ++ fmt02x ((hexVal b * 17 : ℕ) : ℤ) ++ fmt02x ((hexVal a * 17 : ℕ) : ℤ)) ∧
          (Color.Hex col).length = 9)) ∧
    (∀ r1 r2 g1 g2 b1 b2 : Char, isHexDigitB r1 = true → isHexDigitB r2 = true →
        isHexDigitB g1 = true → isHexDigitB g2 = true →
        isHexDigitB b1 = true → isHexDigitB b2 = true →
      ∃ col : Color, parseHexColorValue [r1, r2, g1, g2, b1, b2] = .ok col ∧ col.a = 1 ∧
        Color.Hex col = '#' :: (fmt02x ((hexVal r1 * 16 + hexVal r2 : ℕ) : ℤ) ++
          fmt02x ((hexVal g1 * 16 + hexVal g2 : ℕ) : ℤ) ++ fmt02x ((hexVal b1 * 16 + hexVal b2 : ℕ) : ℤ)) ∧
        (Color.Hex col).length = 7) ∧
    (∀ r1 r2 g1 g2 b1 b2 a1 a2 : Char, isHexDigitB r1 = true → isHexDigitB r2 = true →
        isHexDigitB g1 = true → isHexDigitB g2 = true →
        isHexDigitB b1 = true → isHexDigitB b2 = true →
        isHexDigitB a1 = true → isHexDigitB a2 = true →
      ∃ col : Color, parseHexColorValue [r1, r2, g1, g2, b1, b2, a1, a2] = .ok col ∧
        (col.a < 1 ↔ hexVal a1 * 16 + hexVal a2 < 255) ∧
        (hexVal a1 * 16 + hexVal a2 = 255 → Color.Hex col = '#' ::
          (fmt02x ((hexVal r1 * 16 + hexVal r2 : ℕ) : ℤ) ++ fmt02x ((hexVal g1 * 16 + hexVal g2 : ℕ) : ℤ) ++
           fmt02x ((hexVal b1 * 16 + hexVal b2 : ℕ) : ℤ)) ∧ (Color.Hex col).length = 7) ∧
        (hexVal a1 * 16 + hexVal a2 < 255 → Color.Hex col = '#' ::
          (fmt02x ((hexVal r1 * 16 + hexVal r2 : ℕ) : ℤ) ++ fmt02x ((hexVal g1 * 16 + hexVal g2 : ℕ) : ℤ) ++
           fmt02x ((hexVal b1 * 16 + hexVal b2 : ℕ) : ℤ) ++ fmt02x ((hexVal a1 * 16 + hexVal a2 : ℕ) : ℤ)) ∧
          (Color.Hex col).length = 9)) := by
  have hlen2 : ∀ n : ℕ, n < 256 →
      (fmt02x (truncQ (fl64 (fl64 ((n : ℚ) / 255) * 255)))).length = 2 := by
    intro n hn
    rw [(hexChanRoundtrip n hn).1]
    exact fmt02x_len2 _ (by omega) (by omega)
  refine ⟨?_, ?_, ?_, ?_⟩
  · intro r g b hr hg hb
    have hvr : hexVal r * 17 < 256 := by have := hexVal_le15 r hr; omega
    have hvg : hexVal g * 17 < 256 := by have := hexVal_le15 g hg; omega
    have hvb : hexVal b * 17 < 256 := by have := hexVal_le15 b hb; omega
    have hp : parseHexColorValue [r, g, b] = .ok
        ⟨fl64 ((hexVal r * 17 : ℕ) / 255), fl64 ((hexVal g * 17 : ℕ) / 255),
         fl64 ((hexVal b * 17 : ℕ) / 255), 1⟩ := by
      unfold parseHexColorValue
      rw [goTrimPre_hash r [g, b] (hexDigit_ne_hash r hr)]
    refine ⟨_, hp, rfl, ?_, ?_⟩
    · show Color.Hex _ = _
      unfold Color.Hex
      rw [if_pos rfl]
      rw [(hexChanRoundtrip _ hvr).1, (hexChanRoundtrip _ hvg).1, (hexChanRoundtrip _ hvb).1]
    · unfold Color.Hex
      rw [if_pos rfl]
      simp only [List.length_cons, List.length_append]
      rw [hlen2 _ hvr, hlen2 _ hvg, hlen2 _ hvb]
  · intro r g b a hr hg hb ha
    have hvr : hexVal r * 17 < 256 := by have := hexVal_le15 r hr; omega
    have hvg : hexVal g * 17 < 256 := by have := hexVal_le15 g hg; omega
    have hvb : hexVal b * 17 < 256 := by have := hexVal_le15 b hb; omega
    have hva : hexVal a * 17 < 256 := by have := hexVal_le15 a ha; omega
    have hp : parseHexColorValue [r, g, b, a] = .ok
        ⟨fl64 ((hexVal r * 17 : ℕ) / 255), fl64 ((hexVal g * 17 : ℕ) / 255),
         fl64 ((hexVal b * 17 : ℕ) / 255), fl64 ((hexVal a * 17 : ℕ) / 255)⟩ := by
      unfold parseHexColorValue
      rw [goTrimPre_hash r [g, b, a] (hexDigit_ne_hash r hr)]
    have ha1 := (hexChanRoundtrip _ hva).2.2.2
    have hiff : fl64 ((hexVal a * 17 : ℕ) / 255) < 1 ↔ hexVal a < 15 := by
      have hle := (hexChanRoundtrip _ hva).2.2.1
      have h15 := hexVal_le15 a ha
      constructor
      · intro hlt
        by_contra hc
        push_neg at hc
        have : hexVal a = 15 := by omega
        have : hexVal a * 17 = 255 := by omega
        rw [ha1.mpr this] at hlt
        exact lt_irrefl 1 hlt
      · intro hlt
        rcases lt_or_eq_of_le hle with h | h
        · exact h
        · exfalso
          have := ha1.mp h
          omega
    refine ⟨_, hp, hiff, ?_, ?_⟩
    · intro h15
      have hn255 : hexVal a * 17 = 255 := by omega
      have haeq : fl64 ((hexVal a * 17 : ℕ) / 255) = 1 := ha1.mpr hn255
      constructor
      · show Color.Hex _ = _
        unfold Color.Hex
        rw [if_pos haeq]
        rw [(hexChanRoundtrip _ hvr).1, (hexChanRoundtrip _ hvg).1, (hexChanRoundtrip _ hvb).1]
      · unfold Color.Hex
        rw [if_pos haeq]
        simp only [List.length_cons, List.length_append]
        rw [hlen2 _ hvr, hlen2 _ hvg, hlen2 _ hvb]
    · intro h15
      have hne1 : ¬ fl64 ((hexVal a * 17 : ℕ) / 255) = 1 := by
        intro hc
        have := ha1.mp hc
        omega
      constructor
      · show Color.Hex _ = _
        unfold Color.Hex
        rw [if_neg hne1]
        rw [(hexChanRoundtrip _ hvr).1, (hexChanRoundtrip _ hvg).1,
            (hexChanRoundtrip _ hvb).1, (hexChanRoundtrip _ hva).1]
      · unfold Color.Hex
        rw [if_neg hne1]
        simp only [List.length_cons, List.length_append]
        rw [hlen2 _ hvr, hlen2 _ hvg, hlen2 _ hvb, hlen2 _ hva]
  · intro r1 r2 g1 g2 b1 b2 hr1 hr2 hg1 hg2 hb1 hb2
    have hvr : hexVal r1 * 16 + hexVal r2 < 256 := by
      have := hexVal_le15 r1 hr1; have := hexVal_le15 r2 hr2; omega
    have hvg : hexVal g1 * 16 + hexVal g2 < 256 := by
      have := hexVal_le15 g1 hg1; have := hexVal_le15 g2 hg2; omega
    have hvb : hexVal b1 * 16 + hexVal b2 < 256 := by
      have := hexVal_le15 b1 hb1; have := hexVal_le15 b2 hb2; omega
    have hp : parseHexColorValue [r1, r2, g1, g2, b1, b2] = .ok
        ⟨fl64 ((hexVal r1 * 16 + hexVal r2 : ℕ) / 255),
         fl64 ((hexVal g1 * 16 + hexVal g2 : ℕ) / 255),
         fl64 ((hexVal b1 * 16 + hexVal b2 : ℕ) / 255), 1⟩ := by
      unfold parseHexColorValue
      rw [goTrimPre_hash r1 [r2, g1, g2, b1, b2] (hexDigit_ne_hash r1 hr1)]
    refine ⟨_, hp, rfl, ?_, ?_⟩
    · show Color.Hex _ = _
      unfold Color.Hex
      rw [if_pos rfl]
      rw [(hexChanRoundtrip _ hvr).1, (hexChanRoundtrip _ hvg).1, (hexChanRoundtrip _ hvb).1]
    · unfold Color.Hex
      rw [if_pos rfl]
      simp only [List.length_cons, List.length_append]
      rw [hlen2 _ hvr, hlen2 _ hvg, hlen2 _ hvb]
  · intro r1 r2 g1 g2 b1 b2 a1 a2 hr1 hr2 hg1 hg2 hb1 hb2 ha1d ha2d
    have hvr : hexVal r1 * 16 + hexVal r2 < 256 := by
      have := hexVal_le15 r1 hr1; have := hexVal_le15 r2 hr2; omega
    have hvg : hexVal g1 * 16 + hexVal g2 < 256 := by
      have := hexVal_le15 g1 hg1; have := hexVal_le15 g2 hg2; omega
    have hvb : hexVal b1 * 16 + hexVal b2 < 256 := by
      have := hexVal_le15 b1 hb1; have := hexVal_le15 b2 hb2; omega
    have hva : hexVal a1 * 16 + hexVal a2 < 256 := by
      have := hexVal_le15 a1 ha1d; have := hexVal_le15 a2 ha2d; omega
    have hp : parseHexColorValue [r1, r2, g1, g2, b1, b2, a1, a2] = .ok
        ⟨fl64 ((hexVal r1 * 16 + hexVal r2 : ℕ) / 255),
         fl64 ((hexVal g1 * 16 + hexVal g2 : ℕ) / 255),
         fl64 ((hexVal b1 * 16 + hexVal b2 : ℕ) / 255),
         fl64 ((hexVal a1 * 16 + hexVal a2 : ℕ) / 255)⟩ := by
      unfold parseHexColorValue
      rw [goTrimPre_hash r1 [r2, g1, g2, b1, b2, a1, a2] (hexDigit_ne_hash r1 hr1)]
    have haIff := (hexChanRoundtrip _ hva).2.2.2
    have hiff : fl64 ((hexVal a1 * 16 + hexVal a2 : ℕ) / 255) < 1 ↔
        hexVal a1 * 16 + hexVal a2 < 255 := by
      have hle := (hexChanRoundtrip _ hva).2.2.1
      constructor
      · intro hlt
        by_contra hc
        push_neg at hc
        have h255 : hexVal a1 * 16 + hexVal a2 = 255 := by omega
        rw [haIff.mpr h255] at hlt
        exact lt_irrefl 1 hlt
      · intro hlt
        rcases lt_or_eq_of_le hle with h | h
        · exact h
        · exfalso
          have := haIff.mp h
          omega
    refine ⟨_, hp, hiff, ?_, ?_⟩
    · intro h255
      have haeq : fl64 ((hexVal a1 * 16 + hexVal a2 : ℕ) / 255) = 1 := haIff.mpr h255
      constructor
      · show Color.Hex _ = _
        unfold Color.Hex
        rw [if_pos haeq]
        rw [(hexChanRoundtrip _ hvr).1, (hexChanRoundtrip _ hvg).1, (hexChanRoundtrip _ hvb).1]
      · unfold Color.Hex
        rw [if_pos haeq]
        simp only [List.length_cons, List.length_append]
        rw [hlen2 _ hvr, hlen2 _ hvg, hlen2 _ hvb]
    · intro h255
      have hne1 : ¬ fl64 ((hexVal a1 * 16 + hexVal a2 : ℕ) / 255) = 1 := by
        intro hc
        have := haIff.mp hc
        omega
      constructor
      · show Color.Hex _ = _
        unfold Color.Hex
        rw [if_neg hne1]
        rw [(hexChanRoundtrip _ hvr).1, (hexChanRoundtrip _ hvg).1,
            (hexChanRoundtrip _ hvb).1, (hexChanRoundtrip _ hva).1]
      · unfold Color.Hex
        rw [if_neg hne1]
        simp only [List.length_cons, List.length_append]
        rw [hlen2 _ hvr, hlen2 _ hvg, hlen2 _ hvb, hlen2 _ hva]

/-- C6, witness: the round-trip theorem applied at `f00` (short form) and
at `ff000080` (long form with non-maximal alpha). -/
theorem parseHex_hex_roundtrip_witness :
    (∃ col : Color, parseHexColorValue (("f00").toList) = .ok col ∧ col.a = 1 ∧
      Color.Hex col = ("#ff0000").toList ∧ (Color.Hex col).length = 7) ∧
    (∃ col : Color, parseHexColorValue (("ff000080").toList) = .ok col ∧
      Color.Hex col = ("#ff000080").toList ∧ (Color.Hex col).length = 9) := by
  constructor
  · obtain ⟨col, h1, h2, h3, h4⟩ :=
      parseHex_hex_roundtrip.1 'f' '0' '0' (by decide) (by decide) (by decide)
    exact ⟨col, h1, h2, by rw [h3]; decide, h4⟩
  · obtain ⟨col, h1, _, _, h4⟩ :=
      parseHex_hex_roundtrip.2.2.2 'f' 'f' '0' '0' '0' '0' '8' '0'
        (by decide) (by decide) (by decide) (by decide)
        (by decide) (by decide) (by decide) (by decide)
    obtain ⟨h5, h6⟩ := h4 (by decide)
    exact ⟨col, h1, by rw [h5]; decide, h6⟩

/-! ### C8: `geocodeArea` id derivation

The derivation matches the claim except that the additions
`3_600_000_000 + osmId` / `2_400_000_000 + osmId` are 64-bit and wrap: at
`osmId = 2^63 - 1` (a legal positive int64 passing the `OSMID <= 0`
check) the code renders a negative area id, not the mathematical sum. -/

/-- C8, counterexample: at the maximal int64 osm id the rendered id is the
wrapped (negative) sum, not `3600000000 + osmId`. -/
theorem expandGeocodeArea_overflow_counterexample :
    expandGeocodeArea ⟨("relation").toList, 2 ^ 63 - 1, 0, none, none⟩ .ql =
      .ok (("area(-9223372033254775809)").toList) ∧
    wrap64 (3600000000 + (2 ^ 63 - 1)) ≠ 3600000000 + (2 ^ 63 - 1 : ℤ) := by
  refine ⟨by rfl, by decide⟩

/-- C8 (amended: the derived ids are computed in wrapping 64-bit
arithmetic, which only differs from the plain sums within `3.6e9` of
`2^63`): QL rendering of `geocodeArea` is `area(<id>)` with the geocoder's
area id when nonzero, else `3600000000 + osmId` (wrapped) for relations
and `2400000000 + osmId` (wrapped) for ways; a node result, unrecognized
type, or non-positive id with zero area id is the geocode-data error.
In particular relation 1645 renders `area(3600001645)`. -/
theorem expandGeocodeArea_spec (r : GeocodeResult) :
    (r.areaId ≠ 0 →
      expandGeocodeArea r .ql = .ok (("area(").toList ++ decInt r.areaId ++ [')'])) ∧
    (r.areaId = 0 → normalizeOSMType r.osmType = some (("relation").toList) → 0 < r.osmId →
      expandGeocodeArea r .ql =
        .ok (("area(").toList ++ decInt (wrap64 (3600000000 + r.osmId)) ++ [')'])) ∧
    (r.areaId = 0 → normalizeOSMType r.osmType = some (("way").toList) → 0 < r.osmId →
      expandGeocodeArea r .ql =
        .ok (("area(").toList ++ decInt (wrap64 (2400000000 + r.osmId)) ++ [')'])) ∧
    (r.areaId = 0 →
      (normalizeOSMType r.osmType = none ∨
       normalizeOSMType r.osmType = some (("node").toList) ∨ r.osmId ≤ 0) →
      expandGeocodeArea r .ql = .error .geocodeData) ∧
    expandGeocodeArea ⟨("relation").toList, 1645, 0, none, none⟩ .ql =
      .ok (("area(3600001645)").toList) := by
  refine ⟨?_, ?_, ?_, ?_, by rfl⟩
  · intro hnz
    unfold expandGeocodeArea
    rw [if_neg hnz]
    rfl
  · intro hz ht hid
    unfold expandGeocodeArea deriveAreaID
    rw [if_pos hz, ht]
    dsimp only
    rw [if_neg (by omega), if_pos rfl]
    rfl
  · intro hz ht hid
    unfold expandGeocodeArea deriveAreaID
    rw [if_pos hz, ht]
    dsimp only
    rw [if_neg (by omega), if_neg (by decide), if_pos rfl]
    rfl
  · intro hz hbad
    unfold expandGeocodeArea deriveAreaID
    rw [if_pos hz]
    rcases hbad with h | h | h
    · rw [h]
    · rw [h]
      dsimp only
      by_cases hid : r.osmId ≤ 0
      · rw [if_pos hid]
      · rw [if_neg hid, if_neg (by decide), if_neg (by decide)]
    · rcases hn : normalizeOSMType r.osmType with _ | t
      · rfl
      · dsimp only
        rw [if_pos h]

/-- C8, witness: the amended characterization applied to a relation with a
nonzero area id, to relation 1645, to a way, and to a node. -/
theorem expandGeocodeArea_spec_witness :
    expandGeocodeArea ⟨("relation").toList, 7, 42, none, none⟩ .ql =
      .ok (("area(").toList ++ decInt 42 ++ [')']) ∧
    expandGeocodeArea ⟨("Relation ").toList, 1645, 0, none, none⟩ .ql =
      .ok (("area(").toList ++ decInt (wrap64 (3600000000 + 1645)) ++ [')']) ∧
    expandGeocodeArea ⟨("way").toList, 5, 0, none, none⟩ .ql =
      .ok (("area(").toList ++ decInt (wrap64 (2400000000 + 5)) ++ [')']) ∧
    expandGeocodeArea ⟨("node").toList, 5, 0, none, none⟩ .ql = .error .geocodeData :=
  ⟨(expandGeocodeArea_spec _).1 (by decide),
   (expandGeocodeArea_spec ⟨("Relation ").toList, 1645, 0, none, none⟩).2.1
     rfl (by decide) (by decide),
   (expandGeocodeArea_spec _).2.2.1 rfl (by decide) (by decide),
   (expandGeocodeArea_spec _).2.2.2.1 rfl (.inr (.inl (by decide)))⟩

/-! ### C9: endpoint-override derivation -/

/-- `normalizeEndpoint` as C9 words it: trim whitespace and a trailing
slash; append `/interpreter` after a `/api` suffix; leave alone anything
ending with or containing `/api/interpreter`; turn a trailing `/api/` into
`/api/interpreter`; otherwise leave unchanged (spec-side definition). -/
def normalizeEndpointSpec (raw : Str) : Str :=
  let t := goTrimSuf (trimSpace raw) ['/']
  if isSuf (("/api").toList) t then t ++ ("/interpreter").toList
  else if isSuf (("/api/interpreter").toList) t ∨ containsSub t (("/api/interpreter").toList) then t
  else if isSuf (("/api/").toList) t then goTrimSuf t ['/'] ++ ("/interpreter").toList
  else t

theorem normalizeEndpoint_eq_spec (s : Str) :
    normalizeEndpoint s = normalizeEndpointSpec s := by
  unfold normalizeEndpoint normalizeEndpointSpec
  by_cases he : trimSpace s = []
  · rw [if_pos he, he]
    rfl
  · rw [if_neg he]
    dsimp only
    by_cases h1 : isSuf (("/api").toList) (goTrimSuf (trimSpace s) ['/']) = true
    · rw [if_pos h1, if_pos h1]
    · rw [if_neg h1, if_neg h1]
      by_cases h2 : isSuf (("/api/interpreter").toList) (goTrimSuf (trimSpace s) ['/']) = true
      · rw [if_pos h2, if_pos (Or.inl h2)]
      · rw [if_neg h2]
        by_cases h3 : containsSub (goTrimSuf (trimSpace s) ['/']) (("/api/interpreter").toList) = true
        · rw [if_pos h3, if_pos (Or.inr h3)]
        · have hor : ¬(isSuf (("/api/interpreter").toList) (goTrimSuf (trimSpace s) ['/']) = true ∨
              containsSub (goTrimSuf (trimSpace s) ['/']) (("/api/interpreter").toList) = true) :=
            not_or.mpr ⟨h2, h3⟩
          rw [if_neg h3, if_neg hor]

/-- The only successful `handleMacro` step that changes the accumulated
`EndpointOverride` is the `data:` branch with a case-insensitively
`overpass` mode and a `server` option, and it sets it to the normalized
server. -/
theorem handleMacro_endpoint_only_overpass
    (fuel : ℕ) (opts : Options) (fm : QueryFormat) (sh : List (Str × Str))
    (c : Str) (rs : Result) (rep : Str) (rs' : Result)
    (h : handleMacro fuel opts fm sh c rs = some (.ok (rep, rs'))) :
    rs'.endpointOverride = rs.endpointOverride ∨
    (∃ ds server, parseDataSource (goTrimPre (trimSpace c) (("data:").toList)) = .ok ds ∧
      equalFold ds.mode (("overpass").toList) = true ∧
      lookupStr ds.options (("server").toList) = some server ∧
      rs'.endpointOverride = normalizeEndpoint server) := by
  unfold handleMacro at h
  dsimp only at h
  split_ifs at h with h1 h2 h3 h4 h5 h6 h7 h8 h9
  · simp at h
  · left
    obtain ⟨h1, h2⟩ := Option.some.injEq _ _ ▸ h
    cases h
    rfl
  · rcases hps : ParseMapCSS fuel (trimSpace (goTrimPre (trimSpace c) (("style:").toList)))
        with _ | r
    · rw [hps] at h
      simp at h
    · rw [hps] at h
      rcases r with e | parsed <;>
        · simp only [Option.some.injEq, Except.ok.injEq, Prod.mk.injEq] at h
          left
          rw [← h.2]
  · left
    simp only [Option.some.injEq, Except.ok.injEq, Prod.mk.injEq] at h
    rw [← h.2]
  · rcases hds : parseDataSource (goTrimPre (trimSpace c) (("data:").toList)) with e | ds
    · rw [hds] at h
      simp at h
    · rw [hds] at h
      dsimp only at h
      by_cases hef : equalFold ds.mode (("overpass").toList) = true
      · rw [if_pos hef] at h
        rcases hl : lookupStr ds.options (("server").toList) with _ | server
        · rw [hl] at h
          left
          rcases hl2 : lookupStr ds.options (("server").toList) with _ | s2
          · simp only [hl2, Option.some.injEq, Except.ok.injEq, Prod.mk.injEq] at h
            rw [← h.2]
          · rw [hl2] at hl
            simp at hl
        · rw [hl] at h
          right
          refine ⟨ds, server, rfl, hef, hl, ?_⟩
          simp only [hl, Option.some.injEq, Except.ok.injEq, Prod.mk.injEq] at h
          rw [← h.2]
      · rw [if_neg hef] at h
        left
        rcases hl : lookupStr ds.options (("server").toList) with _ | server <;>
          · simp only [hl, Option.some.injEq, Except.ok.injEq, Prod.mk.injEq] at h
            rw [← h.2]
  · rcases hg : expandGeocode (trimSpace c) opts fm with e | sres
    · rw [hg] at h; simp at h
    · rw [hg] at h
      simp only [Option.some.injEq, Except.ok.injEq, Prod.mk.injEq] at h
      left
      rw [← h.2]
  · rcases hb : opts.bbox with _ | b
    · rw [hb] at h; simp at h
    · rw [hb] at h
      simp only [Option.some.injEq, Except.ok.injEq, Prod.mk.injEq] at h
      left
      rw [← h.2]
  · rcases hc : opts.center with _ | ctr
    · rw [hc] at h; simp at h
    · rw [hc] at h
      simp only [Option.some.injEq, Except.ok.injEq, Prod.mk.injEq] at h
      left
      rw [← h.2]
  · rcases hd : expandDate (trimSpace c) opts.dateEnv with e | t
    · rw [hd] at h; simp at h
    · rw [hd] at h
      simp only [Option.some.injEq, Except.ok.injEq, Prod.mk.injEq] at h
      left
      rw [← h.2]
  · rcases hl : lookupStr sh (trimSpace c) with _ | v
    · rw [hl] at h; simp at h
    · rw [hl] at h
      simp only [Option.some.injEq, Except.ok.injEq, Prod.mk.injEq] at h
      left
      rw [← h.2]

/-- C9: the endpoint override is derived only from a `data:` macro whose
mode compares case-insensitively equal to `overpass`, by normalizing the
server option exactly as the claim describes; in particular
`server=https://overpass-api.de/api/` yields
`https://overpass-api.de/api/interpreter`, and a non-overpass mode leaves
no override. -/
theorem endpointOverride_derivation :
    (∀ s : Str, normalizeEndpoint s = normalizeEndpointSpec s) ∧
    (∀ (fuel : ℕ) (opts : Options) (fm : QueryFormat) (sh : List (Str × Str))
        (c : Str) (rs : Result) (rep : Str) (rs' : Result),
      handleMacro fuel opts fm sh c rs = some (.ok (rep, rs')) →
      rs'.endpointOverride = rs.endpointOverride ∨
      (∃ ds server, parseDataSource (goTrimPre (trimSpace c) (("data:").toList)) = .ok ds ∧
        equalFold ds.mode (("overpass").toList) = true ∧
        lookupStr ds.options (("server").toList) = some server ∧
        rs'.endpointOverride = normalizeEndpoint server)) ∧
    (∃ r, Expand 0 (("\x7b\x7bdata:overpass,server=https://overpass-api.de/api/\x7d\x7d").toList)
        {} = some (r, none) ∧
      r.endpointOverride = ("https://overpass-api.de/api/interpreter").toList) ∧
    (∃ r, Expand 0 (("\x7b\x7bdata:sql,server=https://overpass-api.de/api/\x7d\x7d").toList)
        {} = some (r, none) ∧ r.endpointOverride = []) :=
  ⟨normalizeEndpoint_eq_spec, handleMacro_endpoint_only_overpass,
   ⟨_, rfl, rfl⟩, ⟨_, rfl, rfl⟩⟩

/-- C9, witness: the handler-level conjunct applied to a concrete
`data:overpass` macro step (right disjunct realized). -/
theorem endpointOverride_derivation_witness :
    ({ data := some ⟨("overpass").toList,
         [(("server").toList, ("x/api").toList)], { server := ("x/api").toList }⟩,
       endpointOverride := ("x/api/interpreter").toList,
       dataServer := ("x/api").toList } : Result).endpointOverride =
      ({} : Result).endpointOverride ∨
    (∃ ds server,
      parseDataSource (goTrimPre (trimSpace (("data:overpass,server=x/api").toList))
        (("data:").toList)) = .ok ds ∧
      equalFold ds.mode (("overpass").toList) = true ∧
      lookupStr ds.options (("server").toList) = some server ∧
      ({ data := some ⟨("overpass").toList,
           [(("server").toList, ("x/api").toList)], { server := ("x/api").toList }⟩,
         endpointOverride := ("x/api/interpreter").toList,
         dataServer := ("x/api").toList } : Result).endpointOverride =
        normalizeEndpoint server) :=
  endpointOverride_derivation.2.1 0 {} .ql [] (("data:overpass,server=x/api").toList)
    {} [] _ rfl

/-! ### C10: built-in macros shadow user shortcuts

In the substitution handler, the `style:`/`data:`/`geocode*`/`bbox`/
`center`/`date*` dispatch happens before the shortcut-table lookup, so a
shortcut named like a built-in never expands to its shortcut value. -/

/-- A valid user-shortcut key: what `parseShortcutDefinition` can produce
(trimmed, non-empty, no `:`; and no `=`, since the key is cut at the first
`=`). -/
def validShortcutKey (k : Str) : Prop :=
  trimSpace k = k ∧ k ≠ [] ∧ ':' ∉ k ∧ '=' ∉ k

theorem splitOnce_no_sep (sep : Char) (s : Str) (h : sep ∉ s) :
    splitOnce sep s = (s, none) := by
  unfold splitOnce
  have : splitFirst [sep] s = none := by
    induction s with
    | nil => rfl
    | cons c cs ih =>
      have hc : ¬ (sep == c) = true := by
        simp only [beq_iff_eq]
        intro he
        exact h (he ▸ List.mem_cons_self c cs)
      have hcs : sep ∉ cs := fun hm => h (List.mem_cons_of_mem c hm)
      rw [splitFirst]
      rw [if_neg (by simp [isPre, hc]), ih hcs]
  rw [this]

theorem parseShortcutDefinition_no_eq (k : Str) (h : '=' ∉ k) :
    parseShortcutDefinition k = none := by
  unfold parseShortcutDefinition
  split_ifs with h1
  · rfl
  · rw [splitOnce_no_sep '=' k h]

/-- C10: for any content whose trimmed form is a valid shortcut key that
equals `bbox` or `center` or begins with `geocode` or `date`, the handler's
result does not depend on the shortcut table at all — the built-in handler
runs, never the shortcut value. -/
theorem builtin_shadows_shortcut
    (fuel : ℕ) (opts : Options) (fm : QueryFormat) (sh sh' : List (Str × Str))
    (c : Str) (rs : Result)
    (hk : validShortcutKey (trimSpace c))
    (hb : trimSpace c = ("bbox").toList ∨ trimSpace c = ("center").toList ∨
          isPre (("geocode").toList) (trimSpace c) = true ∨
          isPre (("date").toList) (trimSpace c) = true) :
    handleMacro fuel opts fm sh c rs = handleMacro fuel opts fm sh' c rs := by
  obtain ⟨htrim, hne, hcolon, heq⟩ := hk
  have hdef : parseShortcutDefinition (trimSpace c) = none :=
    parseShortcutDefinition_no_eq _ heq
  have hnostyle : ¬ isPre (("style:").toList) (trimSpace c) = true := by
    intro hp
    have hsp := isPre_eq_append _ _ hp
    apply hcolon
    rw [hsp]
    simp
  have hnodata : ¬ isPre (("data:").toList) (trimSpace c) = true := by
    intro hp
    have hsp := isPre_eq_append _ _ hp
    apply hcolon
    rw [hsp]
    simp
  have hsome : ¬ Option.isSome (none : Option (Str × Str)) = true := by simp
  unfold handleMacro
  dsimp only
  rw [if_neg hne, if_neg hne, hdef, if_neg hsome, if_neg hsome,
      if_neg hnostyle, if_neg hnostyle, if_neg hnodata, if_neg hnodata]
  rcases hb with h | h | h | h
  · have hg : ¬ isPre (("geocode").toList) (trimSpace c) = true := by rw [h]; decide
    rw [if_neg hg, if_neg hg, if_pos h, if_pos h]
  · have hg : ¬ isPre (("geocode").toList) (trimSpace c) = true := by rw [h]; decide
    have hnb : ¬ trimSpace c = ("bbox").toList := by rw [h]; decide
    rw [if_neg hg, if_neg hg, if_neg hnb, if_neg hnb, if_pos h, if_pos h]
  · rw [if_pos h, if_pos h]
  · have hnogeo : ¬ isPre (("geocode").toList) (trimSpace c) = true := by
      intro hp
      have h1 := isPre_eq_append _ _ hp
      have h2 := isPre_eq_append _ _ h
      rw [h2] at h1
      simp at h1
    have hnb : ¬ trimSpace c = ("bbox").toList := by
      intro hc
      rw [hc] at h
      exact absurd h (by decide)
    have hnc : ¬ trimSpace c = ("center").toList := by
      intro hc
      rw [hc] at h
      exact absurd h (by decide)
    rw [if_neg hnogeo, if_neg hnogeo, if_neg hnb, if_neg hnb,
        if_neg hnc, if_neg hnc, if_pos h, if_pos h]

/-- C10, witness and illustration: with a shortcut named `dated` bound to
`X`, `\x7b\x7bdated\x7d\x7d` hits the `date` built-in and fails with the
malformed-macro error instead of expanding to `X`; with a shortcut named
`bbox` bound to `Z` and a bounding box configured, `\x7b\x7bbbox\x7d\x7d`
expands from the bounding-box option, not to `Z` (handler equality applied
at a concrete shortcut table vs. the empty one). -/
theorem builtin_shadows_shortcut_witness :
    handleMacro 0 {} .ql [(("dated").toList, ("X").toList)] (("dated").toList) {} =
      handleMacro 0 {} .ql [] (("dated").toList) {} ∧
    handleMacro 0 {} .ql [(("dated").toList, ("X").toList)] (("dated").toList) {} =
      some (.error .badMacroErr) ∧
    (∀ rf : ℚ → Str,
      handleMacro 0 { bbox := some ⟨1, 2, 3, 4⟩, renderFloat := rf } .ql
          [(("bbox").toList, ("Z").toList)] (("bbox").toList) {} =
        some (.ok (formatBBox ⟨1, 2, 3, 4⟩ .ql rf, {}))) :=
  ⟨builtin_shadows_shortcut 0 {} .ql _ [] (("dated").toList) {}
      ⟨rfl, by decide, by decide, by decide⟩ (.inr (.inr (.inr (by decide)))),
   rfl,
   fun rf => rfl⟩

/-! ### C3: all-or-nothing expansion -/

/-- C3: whenever `Expand` returns an error — from the pre-scan or from the
substitution pass — the returned `Result` is the zero `Result`: empty
query, no styles, no parsed styles, no data source, no endpoint override,
no last style and no data server. -/
theorem expand_zero_result_on_error (fuel : ℕ) (q : Str) (opts : Options)
    (r : Result) (e : ExpErr) (h : Expand fuel q opts = some (r, some e)) :
    r = {} ∧ r.query = [] ∧ r.style = [] ∧ r.styles = [] ∧ r.parsedStyles = [] ∧
    r.data = none ∧ r.endpointOverride = [] ∧ r.dataServer = [] := by
  have hz : r = ({} : Result) := by
    unfold Expand at h
    dsimp only at h
    rcases hs : scanDefs q opts.shortcuts with e1 | sh
    · rw [hs] at h
      simp only [Option.some.injEq, Prod.mk.injEq] at h
      exact h.1.symm
    · rw [hs] at h
      dsimp only at h
      rcases hr : replaceMacros (handleMacro fuel opts (detectFormat q opts.format) sh)
          q {} with _ | res
      · rw [hr] at h
        simp at h
      · rw [hr] at h
        rcases res with e2 | ⟨exp, rs⟩
        · simp only [Option.some.injEq, Prod.mk.injEq] at h
          exact h.1.symm
        · simp at h
  subst hz
  exact ⟨rfl, rfl, rfl, rfl, rfl, rfl, rfl, rfl⟩

/-- C3, witness: a template whose style macro is accumulated but whose
later `\x7b\x7bnope\x7d\x7d` aborts the substitution pass still returns
the zero `Result` next to the error. -/
theorem expand_zero_result_on_error_witness :
    Expand 50 (("\x7b\x7bstyle:s\x7d\x7d\x7b\x7bnope\x7d\x7d").toList) {} =
      some ({}, some .badMacroErr) ∧
    (({} : Result) = {} ∧ ({} : Result).query = [] ∧ ({} : Result).style = [] ∧
      ({} : Result).styles = [] ∧ ({} : Result).parsedStyles = [] ∧
      ({} : Result).data = none ∧ ({} : Result).endpointOverride = [] ∧
      ({} : Result).dataServer = []) :=
  ⟨rfl, expand_zero_result_on_error 50
    (("\x7b\x7bstyle:s\x7d\x7d\x7b\x7bnope\x7d\x7d").toList) {} {} .badMacroErr rfl⟩

/-- C2: the claim that `ParseMapCSS` is total is contradicted by the code:
on `way\x7b;\x7d` the declarations loop `continue`s forever on
`ErrEmptyDeclaration` without advancing, so every fuel budget is exhausted
(the Go function neither returns a `Stylesheet` nor a `ParseError`). -/
theorem parseMapCSS_diverges_on_semicolon_decl :
    ∀ fuel, ParseMapCSS fuel semiInput = none := by
  intro fuel
  have htop : ∀ f, parseTop f ⟨semiInput, 1, 1⟩ = none := by
    intro f
    match f with
    | 0 => rfl
    | (g + 1) =>
      have h1 : parseTop (g + 1) ⟨semiInput, 1, 1⟩ =
          (match parseRule g ⟨semiInput, 1, 1⟩ with
            | none => none
            | some (.error e) => some (.error e)
            | some (.ok (rule, st2)) =>
              match parseTop g st2 with
              | none => none
              | some (.error e) => some (.error e)
              | some (.ok rules) => some (.ok (rule :: rules))) := rfl
      rw [h1, parseRule_semiInput_none]
  unfold ParseMapCSS
  rw [htop fuel]
  rfl

/-! ### C4: style parse failures are swallowed, index-aligned -/

theorem dropWhile_goIsSpace_idem (l : Str) :
    List.dropWhile goIsSpace (List.dropWhile goIsSpace l) = List.dropWhile goIsSpace l := by
  induction l with
  | nil => rfl
  | cons c cs ih =>
    by_cases h : goIsSpace c = true
    · simp [List.dropWhile_cons, h, ih]
    · simp [List.dropWhile_cons, h]

theorem trimLeftSpace_idem (s : Str) : trimLeftSpace (trimLeftSpace s) = trimLeftSpace s :=
  dropWhile_goIsSpace_idem s

theorem trimRightSpace_idem (s : Str) :
    trimRightSpace (trimRightSpace s) = trimRightSpace s := by
  unfold trimRightSpace
  rw [List.reverse_reverse, dropWhile_goIsSpace_idem]

theorem trimRightSpace_prefix (s : Str) : trimRightSpace s <+: s := by
  unfold trimRightSpace
  have h := List.reverse_prefix.mpr (List.dropWhile_suffix (l := s.reverse) goIsSpace)
  rwa [List.reverse_reverse] at h

theorem trimSpace_idem (s : Str) : trimSpace (trimSpace s) = trimSpace s := by
  unfold trimSpace
  have hL : trimLeftSpace (trimRightSpace (trimLeftSpace s)) =
      trimRightSpace (trimLeftSpace s) := by
    cases he : trimRightSpace (trimLeftSpace s) with
    | nil => rfl
    | cons c cs =>
      have hpre : trimRightSpace (trimLeftSpace s) <+: trimLeftSpace s :=
        trimRightSpace_prefix (trimLeftSpace s)
      rw [he] at hpre
      obtain ⟨r, hr⟩ := hpre
      have hidem : trimLeftSpace (trimLeftSpace s) = trimLeftSpace s := trimLeftSpace_idem s
      have hc : goIsSpace c = false := by
        by_contra hcc
        have hct : goIsSpace c = true := by
          cases hgc : goIsSpace c
          · exact absurd hgc hcc
          · rfl
        have ht' : trimLeftSpace s = c :: (cs ++ r) := by rw [← hr]; simp
        have hdw : trimLeftSpace (trimLeftSpace s) = List.dropWhile goIsSpace (cs ++ r) := by
          rw [ht']
          unfold trimLeftSpace
          simp [List.dropWhile_cons, hct]
        have hlen : (trimLeftSpace (trimLeftSpace s)).length ≤ (cs ++ r).length := by
          rw [hdw]
          exact (List.dropWhile_suffix goIsSpace).length_le
        rw [hidem, ht'] at hlen
        simp at hlen
      unfold trimLeftSpace
      simp [List.dropWhile_cons, hc]
  rw [hL, trimRightSpace_idem]

theorem isPre_ne_nil (p s : Str) (hp : p ≠ []) (h : isPre p s = true) : s ≠ [] := by
  intro hs
  subst hs
  have ht := isPre_eq_append p [] h
  exact hp (List.append_eq_nil.mp ht.symm).1

theorem parseShortcutDefinition_style_none (c : Str)
    (h : isPre (("style:").toList) (trimSpace c) = true) :
    parseShortcutDefinition (trimSpace c) = none := by
  unfold parseShortcutDefinition
  rw [trimSpace_idem, h]
  simp

/-- The `style:` branch of the handler can return `none` (fuel out) or a
success, but never an error: a stylesheet parse failure is swallowed. -/
theorem handleMacro_style_no_error (fuel : ℕ) (opts : Options) (fm : QueryFormat)
    (sh : List (Str × Str)) (c : Str) (rs : Result)
    (hst : isPre (("style:").toList) (trimSpace c) = true) (e : ExpErr) :
    handleMacro fuel opts fm sh c rs ≠ some (.error e) := by
  intro h
  have hne : trimSpace c ≠ [] := isPre_ne_nil _ _ (by decide) hst
  unfold handleMacro at h
  dsimp only at h
  split_ifs at h with h1 h2 h3
  · exact hne h1
  · rw [parseShortcutDefinition_style_none c hst] at h2
    simp at h2
  · rcases hps : ParseMapCSS fuel (trimSpace (goTrimPre (trimSpace c) (("style:").toList)))
        with _ | r
    · rw [hps] at h; simp at h
    · rw [hps] at h
      rcases r with e' | parsed <;> simp at h
  · simp at h

/-- Every handler step preserves the invariant that `parsedStyles` is the
image of `styles` under `styleParse fuel`. -/
theorem handleMacro_styles_map (fuel : ℕ) (opts : Options) (fm : QueryFormat)
    (sh : List (Str × Str)) (c : Str) (rs : Result) (rep : Str) (rs' : Result)
    (h : handleMacro fuel opts fm sh c rs = some (.ok (rep, rs')))
    (hp : rs.parsedStyles = rs.styles.map (styleParse fuel)) :
    rs'.parsedStyles = rs'.styles.map (styleParse fuel) := by
  unfold handleMacro at h
  dsimp only at h
  split_ifs at h with h1 h2 h3 h4 h5 h6 h7 h8 h9
  · simp at h
  · simp only [Option.some.injEq, Except.ok.injEq, Prod.mk.injEq] at h
    rw [← h.2]; exact hp
  · rcases hps : ParseMapCSS fuel (trimSpace (goTrimPre (trimSpace c) (("style:").toList)))
        with _ | r
    · rw [hps] at h; simp at h
    · rw [hps] at h
      rcases r with e | parsed
      · simp only [Option.some.injEq, Except.ok.injEq, Prod.mk.injEq] at h
        rw [← h.2]
        show rs.parsedStyles ++ [none] =
          List.map (styleParse fuel)
            (rs.styles ++ [trimSpace (goTrimPre (trimSpace c) (("style:").toList))])
        rw [hp, List.map_append, List.map_cons, List.map_nil]
        have hsp : styleParse fuel
            (trimSpace (goTrimPre (trimSpace c) (("style:").toList))) = none := by
          unfold styleParse; rw [hps]
        rw [hsp]
      · simp only [Option.some.injEq, Except.ok.injEq, Prod.mk.injEq] at h
        rw [← h.2]
        show rs.parsedStyles ++ [some parsed] =
          List.map (styleParse fuel)
            (rs.styles ++ [trimSpace (goTrimPre (trimSpace c) (("style:").toList))])
        rw [hp, List.map_append, List.map_cons, List.map_nil]
        have hsp : styleParse fuel
            (trimSpace (goTrimPre (trimSpace c) (("style:").toList))) = some parsed := by
          unfold styleParse; rw [hps]
        rw [hsp]
  · simp only [Option.some.injEq, Except.ok.injEq, Prod.mk.injEq] at h
    rw [← h.2]; exact hp
  · rcases hds : parseDataSource (goTrimPre (trimSpace c) (("data:").toList)) with e | ds
    · rw [hds] at h; simp at h
    · rw [hds] at h
      dsimp only at h
      by_cases hef : equalFold ds.mode (("overpass").toList) = true
      · rw [if_pos hef] at h
        rcases hl : lookupStr ds.options (("server").toList) with _ | server <;>
          · simp only [hl, Option.some.injEq, Except.ok.injEq, Prod.mk.injEq] at h
            rw [← h.2]; exact hp
      · rw [if_neg hef] at h
        rcases hl : lookupStr ds.options (("server").toList) with _ | server <;>
          · simp only [hl, Option.some.injEq, Except.ok.injEq, Prod.mk.injEq] at h
            rw [← h.2]; exact hp
  · rcases hg : expandGeocode (trimSpace c) opts fm with e | sres
    · rw [hg] at h; simp at h
    · rw [hg] at h
      simp only [Option.some.injEq, Except.ok.injEq, Prod.mk.injEq] at h
      rw [← h.2]; exact hp
  · rcases hb : opts.bbox with _ | b
    · rw [hb] at h; simp at h
    · rw [hb] at h
      simp only [Option.some.injEq, Except.ok.injEq, Prod.mk.injEq] at h
      rw [← h.2]; exact hp
  · rcases hc : opts.center with _ | ctr
    · rw [hc] at h; simp at h
    · rw [hc] at h
      simp only [Option.some.injEq, Except.ok.injEq, Prod.mk.injEq] at h
      rw [← h.2]; exact hp
  · rcases hd : expandDate (trimSpace c) opts.dateEnv with e | t
    · rw [hd] at h; simp at h
    · rw [hd] at h
      simp only [Option.some.injEq, Except.ok.injEq, Prod.mk.injEq] at h
      rw [← h.2]; exact hp
  · rcases hl : lookupStr sh (trimSpace c) with _ | v
    · rw [hl] at h; simp at h
    · rw [hl] at h
      simp only [Option.some.injEq, Except.ok.injEq, Prod.mk.injEq] at h
      rw [← h.2]; exact hp

theorem replaceGo_styles_map (fuel : ℕ) (opts : Options) (fm : QueryFormat)
    (sh : List (Str × Str)) :
    ∀ (n : ℕ) (s : Str) (rs : Result) (tail : Str) (rs' : Result),
      replaceGo (handleMacro fuel opts fm sh) n s rs = some (.ok (tail, rs')) →
      rs.parsedStyles = rs.styles.map (styleParse fuel) →
      rs'.parsedStyles = rs'.styles.map (styleParse fuel) := by
  intro n
  induction n with
  | zero =>
    intro s rs tail rs' h hp
    rw [replaceGo] at h
    simp only [Option.some.injEq, Except.ok.injEq, Prod.mk.injEq] at h
    rw [← h.2]; exact hp
  | succ n ih =>
    intro s rs tail rs' h hp
    rw [replaceGo] at h
    rcases h1 : splitFirst openBrace s with _ | ⟨pre, r1⟩
    · rw [h1] at h
      simp only [Option.some.injEq, Except.ok.injEq, Prod.mk.injEq] at h
      rw [← h.2]; exact hp
    · rw [h1] at h
      dsimp only at h
      rcases h2 : splitFirst closeBrace r1 with _ | ⟨content, after⟩
      · rw [h2] at h; simp at h
      · rw [h2] at h
        dsimp only at h
        rcases h3 : handleMacro fuel opts fm sh content rs with _ | r
        · rw [h3] at h; simp at h
        · rw [h3] at h
          rcases r with e | ⟨rep, rs1⟩
          · simp at h
          · dsimp only at h
            rcases h4 : replaceGo (handleMacro fuel opts fm sh) n after rs1 with _ | r2
            · rw [h4] at h; simp at h
            · rw [h4] at h
              rcases r2 with e | ⟨tail2, rs2⟩
              · simp at h
              · simp only [Option.some.injEq, Except.ok.injEq, Prod.mk.injEq] at h
                rw [← h.2]
                exact ih after rs1 tail2 rs2 h4
                  (handleMacro_styles_map fuel opts fm sh content rs rep rs1 h3 hp)

/-- C4: a stylesheet parse failure inside a `style:` macro never aborts the
expansion — the handler never returns an error on `style:`-prefixed
content — and in every successful `Result` the `parsedStyles` list is the
image of the `styles` list under `styleParse fuel` (the entry at an index
is `none` exactly when `ParseMapCSS` fails on the style text at that
index, and the parsed stylesheet when it succeeds), so both lists have the
same length. -/
theorem style_failures_never_abort :
    (∀ (fuel : ℕ) (opts : Options) (fm : QueryFormat) (sh : List (Str × Str))
        (c : Str) (rs : Result) (e : ExpErr),
      isPre (("style:").toList) (trimSpace c) = true →
      handleMacro fuel opts fm sh c rs ≠ some (.error e)) ∧
    (∀ (fuel : ℕ) (q : Str) (opts : Options) (r : Result),
      Expand fuel q opts = some (r, none) →
      r.parsedStyles = r.styles.map (styleParse fuel) ∧
      r.parsedStyles.length = r.styles.length) := by
  constructor
  · intro fuel opts fm sh c rs e hst
    exact handleMacro_style_no_error fuel opts fm sh c rs hst e
  · intro fuel q opts r h
    have hmap : r.parsedStyles = r.styles.map (styleParse fuel) := by
      unfold Expand at h
      dsimp only at h
      rcases hs : scanDefs q opts.shortcuts with e1 | sh
      · rw [hs] at h; simp at h
      · rw [hs] at h
        dsimp only at h
        rcases hr : replaceMacros (handleMacro fuel opts (detectFormat q opts.format) sh) q {}
            with _ | res
        · rw [hr] at h; simp at h
        · rw [hr] at h
          rcases res with e2 | ⟨exp, rs⟩
          · simp at h
          · simp only [Option.some.injEq, Prod.mk.injEq] at h
            have hinv := replaceGo_styles_map fuel opts (detectFormat q opts.format) sh
              q.length q {} exp rs hr rfl
            rw [← h.1]
            exact hinv
    exact ⟨hmap, by rw [hmap, List.length_map]⟩

/-- C4, witness: the handler step on `style:way[` (unparseable CSS) is not
an error, and the full expansion of a template carrying that style
succeeds with `styles = [way[]`, `parsedStyles = [none]`, equal lengths. -/
theorem style_failures_never_abort_witness :
    (isPre (("style:").toList) (trimSpace (("style:way[").toList)) = true ∧
     handleMacro 100 {} .ql [] (("style:way[").toList) {} ≠
       some (.error .badMacroErr)) ∧
    (Expand 100 (("\x7b\x7bstyle:way[\x7d\x7dnode;out;").toList) {} =
       some ({ query := ("node;out;").toList, style := ("way[").toList,
               styles := [("way[").toList], parsedStyles := [none] }, none) ∧
     ([none] : List (Option Stylesheet)) = [("way[").toList].map (styleParse 100) ∧
     ([none] : List (Option Stylesheet)).length = [("way[").toList].length) :=
  ⟨⟨by decide,
    style_failures_never_abort.1 100 {} .ql [] (("style:way[").toList) {}
      .badMacroErr (by decide)⟩,
   rfl,
   (style_failures_never_abort.2 100 (("\x7b\x7bstyle:way[\x7d\x7dnode;out;").toList)
      {} _ rfl).1,
   (style_failures_never_abort.2 100 (("\x7b\x7bstyle:way[\x7d\x7dnode;out;").toList)
      {} _ rfl).2⟩

/-! ### C1: shortcut definitions -/

theorem splitFirst_single (sep : Char) (s : Str) :
    splitFirst [sep] s =
      if sep ∈ s then
        some (s.takeWhile (fun c => c ≠ sep), (s.dropWhile (fun c => c ≠ sep)).tail)
      else none := by
  induction s with
  | nil => simp [splitFirst, isPre]
  | cons c cs ih =>
    by_cases hc : c = sep
    · subst hc
      simp [splitFirst, isPre, List.takeWhile_cons, List.dropWhile_cons]
    · rw [splitFirst]
      have hpre : isPre [sep] (c :: cs) = false := by
        simp [isPre]
        intro he
        exact absurd he.symm hc
      rw [hpre]
      simp only [Bool.false_eq_true, if_false]
      rw [ih]
      by_cases hm : sep ∈ cs
      · rw [if_pos hm, if_pos (List.mem_cons_of_mem c hm)]
        simp [List.takeWhile_cons, List.dropWhile_cons, hc]
      · rw [if_neg hm, if_neg (by
          simp [hm]
          intro he
          exact absurd he.symm hc)]

theorem splitOnce_eq (sep : Char) (s : Str) :
    splitOnce sep s =
      if sep ∈ s then
        (s.takeWhile (fun c => c ≠ sep), some ((s.dropWhile (fun c => c ≠ sep)).tail))
      else (s, none) := by
  unfold splitOnce
  rw [splitFirst_single]
  by_cases hm : sep ∈ s
  · rw [if_pos hm, if_pos hm]
  · rw [if_neg hm, if_neg hm]

/-- C1, counterexample: `a=b=c` contains two `=`, so the spec's
"exactly one top-level `=`" condition rejects it — but the code splits at
the first `=` and accepts it as a definition of `a` with value `b=c`, and
a full expansion substitutes that value. -/
theorem shortcut_exactly_one_eq_counterexample :
    isShortcutDefinitionSpec (("a=b=c").toList) = false ∧
    parseShortcutDefinition (("a=b=c").toList) =
      some ((("a").toList), (("b=c").toList)) ∧
    Expand 0 (("\x7b\x7ba=b=c\x7d\x7d\x7b\x7ba\x7d\x7d").toList) {} =
      some ({ query := ("b=c").toList }, none) :=
  ⟨by decide, by decide, rfl⟩

/-- `parseShortcutDefinition`, rephrased over the first-`=` split. -/
theorem parseShortcutDefinition_eq (content : Str) :
    parseShortcutDefinition content =
      if isPre (("data:").toList) (trimSpace content) ∨
         isPre (("style:").toList) (trimSpace content) then none
      else if '=' ∈ content then
        let name := trimSpace (content.takeWhile (fun c => c ≠ '='))
        if name = [] ∨ ':' ∈ name then none
        else some (name, trimSpace ((content.dropWhile (fun c => c ≠ '=')).tail))
      else none := by
  unfold parseShortcutDefinition
  rw [splitOnce_eq]
  by_cases hds : (isPre (("data:").toList) (trimSpace content) = true) ∨
      (isPre (("style:").toList) (trimSpace content) = true)
  · rw [if_pos hds, if_pos hds]
  · rw [if_neg hds, if_neg hds]
    by_cases hm : '=' ∈ content
    · rw [if_pos hm, if_pos hm]
    · rw [if_neg hm, if_neg hm]

theorem isShortcutDefinitionAmended_iff (content : Str) :
    isShortcutDefinitionAmended content = true ↔
      (isPre (("data:").toList) (trimSpace content) = false ∧
       isPre (("style:").toList) (trimSpace content) = false ∧
       '=' ∈ content ∧
       trimSpace (content.takeWhile (fun c => c ≠ '=')) ≠ [] ∧
       ':' ∉ trimSpace (content.takeWhile (fun c => c ≠ '='))) := by
  unfold isShortcutDefinitionAmended
  simp [Bool.and_eq_true, Bool.not_eq_true', and_assoc]

theorem parseShortcutDefinition_isSome (content : Str) :
    (parseShortcutDefinition content).isSome = isShortcutDefinitionAmended content := by
  rw [parseShortcutDefinition_eq content]
  by_cases hA : isShortcutDefinitionAmended content = true
  · obtain ⟨hd, hs, hm, h1, h2⟩ := (isShortcutDefinitionAmended_iff content).mp hA
    rw [hA]
    rw [if_neg (not_or.mpr ⟨by rw [hd]; decide, by rw [hs]; decide⟩), if_pos hm]
    dsimp only
    rw [if_neg (not_or.mpr ⟨h1, h2⟩)]
    rfl
  · have hA' : isShortcutDefinitionAmended content = false := by
      cases hb : isShortcutDefinitionAmended content
      · rfl
      · exact absurd hb hA
    have hn := fun hc => hA ((isShortcutDefinitionAmended_iff content).mpr hc)
    rw [hA']
    by_cases hd : isPre (("data:").toList) (trimSpace content) = true
    · rw [if_pos (Or.inl hd)]; rfl
    · by_cases hs : isPre (("style:").toList) (trimSpace content) = true
      · rw [if_pos (Or.inr hs)]; rfl
      · have hd' : isPre (("data:").toList) (trimSpace content) = false := by
          cases hq : isPre (("data:").toList) (trimSpace content)
          · rfl
          · exact absurd hq hd
        have hs' : isPre (("style:").toList) (trimSpace content) = false := by
          cases hq : isPre (("style:").toList) (trimSpace content)
          · rfl
          · exact absurd hq hs
        rw [if_neg (not_or.mpr ⟨hd, hs⟩)]
        by_cases hm : '=' ∈ content
        · rw [if_pos hm]
          dsimp only
          by_cases h12 : trimSpace (content.takeWhile (fun c => c ≠ '=')) = [] ∨
              ':' ∈ trimSpace (content.takeWhile (fun c => c ≠ '='))
          · rw [if_pos h12]; rfl
          · exfalso
            rw [not_or] at h12
            exact hn ⟨hd', hs', hm, h12.1, h12.2⟩
        · rw [if_neg hm]; rfl

theorem parseShortcutDefinition_some (content : Str)
    (hA : isShortcutDefinitionAmended content = true) :
    parseShortcutDefinition content =
      some (trimSpace (content.takeWhile (fun c => c ≠ '=')),
            trimSpace ((content.dropWhile (fun c => c ≠ '=')).tail)) := by
  obtain ⟨hd, hs, hm, h1, h2⟩ := (isShortcutDefinitionAmended_iff content).mp hA
  rw [parseShortcutDefinition_eq content]
  rw [if_neg (not_or.mpr ⟨by rw [hd]; decide, by rw [hs]; decide⟩), if_pos hm]
  dsimp only
  rw [if_neg (not_or.mpr ⟨h1, h2⟩)]

/-- A recognized definition span expands to the empty string and leaves
the substitution state unchanged. -/
theorem handleMacro_definition_empty (fuel : ℕ) (opts : Options) (fm : QueryFormat)
    (sh : List (Str × Str)) (c : Str) (rs : Result) (d : Str × Str)
    (hdef : parseShortcutDefinition (trimSpace c) = some d) :
    handleMacro fuel opts fm sh c rs = some (.ok ([], rs)) := by
  have hne : trimSpace c ≠ [] := by
    intro h0
    rw [h0] at hdef
    have hn : parseShortcutDefinition ([] : Str) = none := rfl
    rw [hn] at hdef
    exact Option.noConfusion hdef
  unfold handleMacro
  dsimp only
  rw [if_neg hne, hdef]
  simp

/-- C1 (amended: a span is a definition iff its content is not
`data:`/`style:`-prefixed and contains AT LEAST one `=`, split at the
FIRST `=` into a trimmed non-empty key without `:` and a trimmed value):
the code's acceptance agrees with that condition and produces exactly that
key/value pair; every definition span expands to the empty string leaving
the state unchanged; the spec's own example expands as stated; and a
forward reference (macro before its definition) still resolves because the
whole template is pre-scanned. -/
theorem shortcut_definition_characterization :
    (∀ content : Str,
      (parseShortcutDefinition content).isSome = isShortcutDefinitionAmended content) ∧
    (∀ content : Str, isShortcutDefinitionAmended content = true →
      parseShortcutDefinition content =
        some (trimSpace (content.takeWhile (fun c => c ≠ '=')),
              trimSpace ((content.dropWhile (fun c => c ≠ '=')).tail))) ∧
    (∀ (fuel : ℕ) (opts : Options) (fm : QueryFormat) (sh : List (Str × Str))
        (c : Str) (rs : Result) (d : Str × Str),
      parseShortcutDefinition (trimSpace c) = some d →
      handleMacro fuel opts fm sh c rs = some (.ok ([], rs))) ∧
    Expand 0 (("\x7b\x7bfoo=bar\x7d\x7dnode(\x7b\x7bfoo\x7d\x7d);out;").toList) {} =
      some ({ query := ("node(bar);out;").toList }, none) ∧
    Expand 0 (("node(\x7b\x7bfoo\x7d\x7d);out;\x7b\x7bfoo=bar\x7d\x7d").toList) {} =
      some ({ query := ("node(bar);out;").toList }, none) :=
  ⟨parseShortcutDefinition_isSome, parseShortcutDefinition_some,
   handleMacro_definition_empty, rfl, rfl⟩

/-- C1, witness: the characterization applied to `foo=bar` (accepted,
split into `foo`/`bar`) and the empty-replacement conjunct applied to a
concrete handler step. -/
theorem shortcut_definition_characterization_witness :
    (isShortcutDefinitionAmended (("foo=bar").toList) = true ∧
     parseShortcutDefinition (("foo=bar").toList) =
       some (trimSpace ((("foo=bar").toList).takeWhile (fun c => c ≠ '=')),
             trimSpace (((("foo=bar").toList).dropWhile (fun c => c ≠ '=')).tail))) ∧
    (parseShortcutDefinition (trimSpace (("foo=bar").toList)) =
       some ((("foo").toList), (("bar").toList)) ∧
     handleMacro 0 {} .ql [] (("foo=bar").toList) {} = some (.ok ([], {}))) :=
  ⟨⟨by decide,
    shortcut_definition_characterization.2.1 (("foo=bar").toList) (by decide)⟩,
   ⟨by decide,
    shortcut_definition_characterization.2.2.1 0 {} .ql [] (("foo=bar").toList) {}
      ((("foo").toList), (("bar").toList)) (by decide)⟩⟩

/-! ### C7: value re-parsing -/

theorem length_splitOnP (p : Char → Bool) (l : Str) :
    (l.splitOnP p).length = l.countP p + 1 := by
  induction l with
  | nil => rfl
  | cons c cs ih =>
    rw [List.splitOnP_cons]
    by_cases h : p c = true
    · rw [if_pos h]
      simp [List.countP_cons, h, ih]
    · rw [if_neg h]
      rcases hs : cs.splitOnP p with _ | ⟨a, as⟩
      · exact absurd hs (List.splitOnP_ne_nil _ _)
      · rw [hs] at ih
        rw [List.modifyHead_cons]
        simp only [List.length_cons] at ih ⊢
        rw [ih]
        simp [List.countP_cons, h]

theorem splitOn_append_ne_sep (l : Str) (c sep : Char) (h : c ≠ sep) :
    ((l ++ [c]).splitOn sep).length = (l.splitOn sep).length := by
  unfold List.splitOn
  rw [length_splitOnP, length_splitOnP, List.countP_append]
  have hc : List.countP (· == sep) [c] = 0 := by
    simp [List.countP_cons, h]
  rw [hc]

theorem takeWhile_self_idem (p : Char → Bool) (l : Str) :
    (l.takeWhile p).takeWhile p = l.takeWhile p :=
  List.takeWhile_eq_self_iff.mpr (fun _ hx => List.mem_takeWhile_imp hx)

theorem skipWhitespace_id (st : PSt) (h : isWhitespaceB (peekC st) = false) :
    skipWhitespace st = st := by
  unfold skipWhitespace
  cases hr : st.rest with
  | nil => rfl
  | cons c cs =>
    have hc : isWhitespaceB c = false := by
      unfold peekC at h
      rw [hr] at h
      exact h
    rw [List.takeWhile_cons_of_neg (by simp [hc])]
    rfl

theorem isWhitespaceB_goIsSpace (c : Char) (h : isWhitespaceB c = true) :
    goIsSpace c = true := by
  unfold isWhitespaceB at h
  unfold goIsSpace
  simp only [Bool.or_eq_true, beq_iff_eq] at h ⊢
  rcases h with ((h | h) | h) | h <;> subst h <;> decide

theorem parenScan_scanDepth :
    ∀ (s : Str) (d : ℕ), ∃ d', scanDepth (parenScan s d).1 d = some d' := by
  intro s
  induction s with
  | nil => intro d; exact ⟨d, rfl⟩
  | cons c cs ih =>
    intro d
    rw [parenScan]
    by_cases h1 : c = '('
    · rw [if_pos h1]
      rcases hp : parenScan cs (d + 1) with ⟨o, k⟩
      dsimp only
      rw [scanDepth, if_pos h1]
      have hi := ih (d + 1)
      rw [hp] at hi
      exact hi
    · rw [if_neg h1]
      by_cases h2 : c = ')'
      · rw [if_pos h2]
        by_cases h3 : d = 1
        · rw [if_pos h3]
          exact ⟨d, rfl⟩
        · rw [if_neg h3]
          rcases hp : parenScan cs (d - 1) with ⟨o, k⟩
          dsimp only
          rw [scanDepth, if_neg h1, if_pos h2, if_neg h3]
          have hi := ih (d - 1)
          rw [hp] at hi
          exact hi
      · rw [if_neg h2]
        rcases hp : parenScan cs d with ⟨o, k⟩
        dsimp only
        rw [scanDepth, if_neg h1, if_neg h2]
        have hi := ih d
        rw [hp] at hi
        exact hi

theorem parenScan_append (t : Str) :
    ∀ (o : Str) (d d' : ℕ), scanDepth o d = some d' →
    parenScan (o ++ t) d =
      (o ++ (parenScan t d').1, o.length + (parenScan t d').2) := by
  intro o
  induction o with
  | nil =>
    intro d d' h
    rw [scanDepth] at h
    injection h with h
    subst h
    rcases hp : parenScan t d with ⟨o1, k1⟩
    simp [hp]
  | cons c o1 ih =>
    intro d d' h
    rw [scanDepth] at h
    rw [List.cons_append, parenScan]
    by_cases h1 : c = '('
    · rw [if_pos h1] at h ⊢
      rw [ih (d + 1) d' h]
      dsimp only
      simp only [List.cons_append, List.length_cons, Prod.mk.injEq]
      exact ⟨by simp, by omega⟩
    · rw [if_neg h1] at h ⊢
      by_cases h2 : c = ')'
      · rw [if_pos h2] at h ⊢
        by_cases h3 : d = 1
        · rw [if_pos h3] at h
          exact Option.noConfusion h
        · rw [if_neg h3] at h ⊢
          rw [ih (d - 1) d' h]
          dsimp only
          simp only [List.cons_append, List.length_cons, Prod.mk.injEq]
          exact ⟨by simp, by omega⟩
      · rw [if_neg h2] at h ⊢
        rw [ih d d' h]
        dsimp only
        simp only [List.cons_append, List.length_cons, Prod.mk.injEq]
        exact ⟨by simp, by omega⟩

theorem parseURLValue_typ (st : PSt) : (parseURLValue st).1.typ = .vURL := rfl

theorem parseEvalValue_typ (st : PSt) : (parseEvalValue st).1.typ = .vEval := rfl

theorem parseValue_url_raw (C : Str) (l col : ℕ) :
    parseValue ⟨("url(").toList ++ C ++ [')'], l, col⟩ =
      .ok (parseURLValue ⟨("url(").toList ++ C ++ [')'], l, col⟩) := by
  have hsw : skipWhitespace ⟨("url(").toList ++ C ++ [')'], l, col⟩ =
      ⟨("url(").toList ++ C ++ [')'], l, col⟩ := skipWhitespace_id _ rfl
  have h4 : (("url(").toList : Str).length = 4 := rfl
  have hne : (("url(").toList ++ C ++ [')'] : Str) ≠ [] := by simp
  have hlen : 4 < (("url(").toList ++ C ++ [')'] : Str).length := by
    rw [List.append_assoc, List.length_append, h4, List.length_append,
      List.length_cons, List.length_nil]
    omega
  have htake : (("url(").toList ++ C ++ [')'] : Str).take 4 = ("url(").toList := by
    rw [List.append_assoc]
    exact List.take_left' h4
  unfold parseValue
  rw [hsw]
  dsimp only
  rw [if_neg hne, if_pos ⟨hlen, htake⟩]

theorem parseValue_eval_raw (C : Str) (l col : ℕ) :
    parseValue ⟨("eval(").toList ++ C ++ [')'], l, col⟩ =
      .ok (parseEvalValue ⟨("eval(").toList ++ C ++ [')'], l, col⟩) := by
  have hsw : skipWhitespace ⟨("eval(").toList ++ C ++ [')'], l, col⟩ =
      ⟨("eval(").toList ++ C ++ [')'], l, col⟩ := skipWhitespace_id _ rfl
  have h5 : (("eval(").toList : Str).length = 5 := rfl
  have hne : (("eval(").toList ++ C ++ [')'] : Str) ≠ [] := by simp
  have hnu : ¬(4 < (("eval(").toList ++ C ++ [')'] : Str).length ∧
      (("eval(").toList ++ C ++ [')'] : Str).take 4 = ("url(").toList) := by
    rintro ⟨-, ht⟩
    rw [List.append_assoc, List.take_append_eq_append_take] at ht
    simp at ht
  have hlen : 5 < (("eval(").toList ++ C ++ [')'] : Str).length := by
    rw [List.append_assoc, List.length_append, h5, List.length_append,
      List.length_cons, List.length_nil]
    omega
  have htake : (("eval(").toList ++ C ++ [')'] : Str).take 5 = ("eval(").toList := by
    rw [List.append_assoc]
    exact List.take_left' h5
  unfold parseValue
  rw [hsw]
  dsimp only
  rw [if_neg hne, if_neg hnu, if_pos ⟨hlen, htake⟩]

theorem parseRGBColor_ok_typ (st : PSt)
    (h3 : (((parseUntilClosingParen (advRaw st 4)).1).splitOn ',').length = 3) :
    ∃ v' st'', parseRGBColor st = .ok (v', st'') ∧ v'.typ = .vColor := by
  unfold parseRGBColor
  dsimp only
  rcases hP : parseUntilClosingParen (advRaw st 4) with ⟨C, st2⟩
  rw [hP] at h3
  dsimp only at h3 ⊢
  rw [if_neg (not_not_intro h3)]
  exact ⟨_, _, rfl, rfl⟩

theorem parseRGBAColor_ok_typ (st : PSt)
    (h4 : (((parseUntilClosingParen (advRaw st 5)).1).splitOn ',').length = 4) :
    ∃ v' st'', parseRGBAColor st = .ok (v', st'') ∧ v'.typ = .vColor := by
  unfold parseRGBAColor
  dsimp only
  rcases hP : parseUntilClosingParen (advRaw st 5) with ⟨C, st2⟩
  rw [hP] at h4
  dsimp only at h4 ⊢
  rw [if_neg (not_not_intro h4)]
  exact ⟨_, _, rfl, rfl⟩

/-- Re-scanning collected paren content (plus the closing `)` that the raw
text reattaches) yields the same content, possibly with one extra `)` —
never with a different comma count. -/
theorem parenScan_recollect (C : Str) (d' : ℕ) (hd : scanDepth C 1 = some d') :
    (parenScan (C ++ [')']) 1).1 = C ∨
    (parenScan (C ++ [')']) 1).1 = C ++ [')'] := by
  rw [parenScan_append [')'] C 1 d' hd]
  by_cases hd1 : d' = 1
  · subst hd1
    left
    simp [parenScan]
  · right
    have hP : parenScan [')'] d' = ([')'], 1) := by
      rw [parenScan, if_neg (by decide : ¬ (')' = '(')), if_pos rfl, if_neg hd1]
      rfl
    rw [hP]

theorem parseValue_rgb_raw (C : Str) (l col : ℕ) (d' : ℕ)
    (hd : scanDepth C 1 = some d') (h3 : (C.splitOn ',').length = 3) :
    ∃ v' st'', parseValue ⟨("rgb(").toList ++ C ++ [')'], l, col⟩ = .ok (v', st'') ∧
      v'.typ = .vColor := by
  have hsw : skipWhitespace ⟨("rgb(").toList ++ C ++ [')'], l, col⟩ =
      ⟨("rgb(").toList ++ C ++ [')'], l, col⟩ := skipWhitespace_id _ rfl
  have h4 : (("rgb(").toList : Str).length = 4 := rfl
  have hne : (("rgb(").toList ++ C ++ [')'] : Str) ≠ [] := by simp
  have hnu : ¬(4 < (("rgb(").toList ++ C ++ [')'] : Str).length ∧
      (("rgb(").toList ++ C ++ [')'] : Str).take 4 = ("url(").toList) := by
    rintro ⟨-, ht⟩
    rw [List.append_assoc, List.take_left' h4] at ht
    exact absurd ht (by decide)
  have hnev : ¬(5 < (("rgb(").toList ++ C ++ [')'] : Str).length ∧
      (("rgb(").toList ++ C ++ [')'] : Str).take 5 = ("eval(").toList) := by
    rintro ⟨-, ht⟩
    rw [List.append_assoc, List.take_append_eq_append_take] at ht
    simp at ht
  have hlen : 4 < (("rgb(").toList ++ C ++ [')'] : Str).length := by
    rw [List.append_assoc, List.length_append, h4, List.length_append,
      List.length_cons, List.length_nil]
    omega
  have htake : (("rgb(").toList ++ C ++ [')'] : Str).take 4 = ("rgb(").toList := by
    rw [List.append_assoc]
    exact List.take_left' h4
  have hcomp : parseValue ⟨("rgb(").toList ++ C ++ [')'], l, col⟩ =
      parseRGBColor ⟨("rgb(").toList ++ C ++ [')'], l, col⟩ := by
    unfold parseValue
    rw [hsw]
    dsimp only
    rw [if_neg hne, if_neg hnu, if_neg hnev, if_pos ⟨hlen, htake⟩]
  have hdrop : ((advRaw ⟨("rgb(").toList ++ C ++ [')'], l, col⟩ 4) : PSt).rest =
      C ++ [')'] := by
    show ((("rgb(").toList ++ C ++ [')'] : Str).drop 4) = C ++ [')']
    rw [List.append_assoc]
    exact List.drop_left' h4
  have hsplit :
      (((parseUntilClosingParen (advRaw ⟨("rgb(").toList ++ C ++ [')'], l, col⟩ 4)).1).splitOn
        ',').length = 3 := by
    unfold parseUntilClosingParen
    rw [hdrop]
    rcases hre : parenScan (C ++ [')']) 1 with ⟨o, k⟩
    dsimp only
    have hcol := parenScan_recollect C d' hd
    rw [hre] at hcol
    rcases hcol with hcol | hcol <;> dsimp only at hcol <;> subst hcol
    · exact h3
    · rw [splitOn_append_ne_sep C ')' ',' (by decide)]
      exact h3
  obtain ⟨v', st'', he, ht⟩ := parseRGBColor_ok_typ _ hsplit
  exact ⟨v', st'', hcomp.trans he, ht⟩

theorem parseValue_rgba_raw (C : Str) (l col : ℕ) (d' : ℕ)
    (hd : scanDepth C 1 = some d') (h3 : (C.splitOn ',').length = 4) :
    ∃ v' st'', parseValue ⟨("rgba(").toList ++ C ++ [')'], l, col⟩ = .ok (v', st'') ∧
      v'.typ = .vColor := by
  have hsw : skipWhitespace ⟨("rgba(").toList ++ C ++ [')'], l, col⟩ =
      ⟨("rgba(").toList ++ C ++ [')'], l, col⟩ := skipWhitespace_id _ rfl
  have h5 : (("rgba(").toList : Str).length = 5 := rfl
  have hne : (("rgba(").toList ++ C ++ [')'] : Str) ≠ [] := by simp
  have hnu : ¬(4 < (("rgba(").toList ++ C ++ [')'] : Str).length ∧
      (("rgba(").toList ++ C ++ [')'] : Str).take 4 = ("url(").toList) := by
    rintro ⟨-, ht⟩
    rw [List.append_assoc, List.take_append_eq_append_take] at ht
    simp at ht
  have hnev : ¬(5 < (("rgba(").toList ++ C ++ [')'] : Str).length ∧
      (("rgba(").toList ++ C ++ [')'] : Str).take 5 = ("eval(").toList) := by
    rintro ⟨-, ht⟩
    rw [List.append_assoc, List.take_left' h5] at ht
    exact absurd ht (by decide)
  have hnr : ¬(4 < (("rgba(").toList ++ C ++ [')'] : Str).length ∧
      (("rgba(").toList ++ C ++ [')'] : Str).take 4 = ("rgb(").toList) := by
    rintro ⟨-, ht⟩
    rw [List.append_assoc, List.take_append_eq_append_take] at ht
    simp at ht
  have hlen : 5 < (("rgba(").toList ++ C ++ [')'] : Str).length := by
    rw [List.append_assoc, List.length_append, h5, List.length_append,
      List.length_cons, List.length_nil]
    omega
  have htake : (("rgba(").toList ++ C ++ [')'] : Str).take 5 = ("rgba(").toList := by
    rw [List.append_assoc]
    exact List.take_left' h5
  have hcomp : parseValue ⟨("rgba(").toList ++ C ++ [')'], l, col⟩ =
      parseRGBAColor ⟨("rgba(").toList ++ C ++ [')'], l, col⟩ := by
    unfold parseValue
    rw [hsw]
    dsimp only
    rw [if_neg hne, if_neg hnu, if_neg hnev, if_neg hnr, if_pos ⟨hlen, htake⟩]
  have hdrop : ((advRaw ⟨("rgba(").toList ++ C ++ [')'], l, col⟩ 5) : PSt).rest =
      C ++ [')'] := by
    show ((("rgba(").toList ++ C ++ [')'] : Str).drop 5) = C ++ [')']
    rw [List.append_assoc]
    exact List.drop_left' h5
  have hsplit :
      (((parseUntilClosingParen (advRaw ⟨("rgba(").toList ++ C ++ [')'], l, col⟩ 5)).1).splitOn
        ',').length = 4 := by
    unfold parseUntilClosingParen
    rw [hdrop]
    rcases hre : parenScan (C ++ [')']) 1 with ⟨o, k⟩
    dsimp only
    have hcol := parenScan_recollect C d' hd
    rw [hre] at hcol
    rcases hcol with hcol | hcol <;> dsimp only at hcol <;> subst hcol
    · exact h3
    · rw [splitOn_append_ne_sep C ')' ',' (by decide)]
      exact h3
  obtain ⟨v', st'', he, ht⟩ := parseRGBAColor_ok_typ _ hsplit
  exact ⟨v', st'', hcomp.trans he, ht⟩

theorem parseValue_hex_raw (t : Str) (l col : ℕ) (c0 : Color)
    (hT : t.takeWhile isHexDigitB = t)
    (hok : parseHexColorValue ('#' :: t) = .ok c0) :
    ∃ v' st'', parseValue ⟨'#' :: t, l, col⟩ = .ok (v', st'') ∧ v'.typ = .vColor := by
  have hsw : skipWhitespace ⟨'#' :: t, l, col⟩ = ⟨'#' :: t, l, col⟩ :=
    skipWhitespace_id _ rfl
  have hne : ('#' :: t : Str) ≠ [] := by simp
  have hnu : ¬(4 < ('#' :: t : Str).length ∧ ('#' :: t : Str).take 4 = ("url(").toList) := by
    rintro ⟨-, ht⟩
    simp [List.take_succ_cons] at ht
  have hnev : ¬(5 < ('#' :: t : Str).length ∧
      ('#' :: t : Str).take 5 = ("eval(").toList) := by
    rintro ⟨-, ht⟩
    simp [List.take_succ_cons] at ht
  have hnr : ¬(4 < ('#' :: t : Str).length ∧ ('#' :: t : Str).take 4 = ("rgb(").toList) := by
    rintro ⟨-, ht⟩
    simp [List.take_succ_cons] at ht
  have hnra : ¬(5 < ('#' :: t : Str).length ∧
      ('#' :: t : Str).take 5 = ("rgba(").toList) := by
    rintro ⟨-, ht⟩
    simp [List.take_succ_cons] at ht
  have hpk : peekC (⟨'#' :: t, l, col⟩ : PSt) = '#' := rfl
  have hadv : advance (⟨'#' :: t, l, col⟩ : PSt) = ⟨t, l, col + 1⟩ := by
    unfold advance
    dsimp only
    rw [if_neg (by decide : ¬ ('#' = '\n'))]
  have hcomp : parseValue ⟨'#' :: t, l, col⟩ = parseHexColor ⟨'#' :: t, l, col⟩ := by
    unfold parseValue
    rw [hsw]
    dsimp only
    rw [if_neg hne, if_neg hnu, if_neg hnev, if_neg hnr, if_neg hnra, if_pos hpk]
  have hhex : parseHexColor ⟨'#' :: t, l, col⟩ =
      .ok ({ raw := '#' :: t, typ := .vColor, color := some c0 },
           advN ⟨t, l, col + 1⟩ t.length) := by
    unfold parseHexColor
    rw [if_neg (not_not_intro hpk)]
    dsimp only
    rw [hadv]
    dsimp only
    rw [hT, hok]
  exact ⟨_, _, hcomp.trans hhex, rfl⟩

theorem determineValueType_raw (r : Str) : (determineValueType r).raw = r := by
  unfold determineValueType
  rcases hn : parseNamedColor r with _ | c
  · dsimp only
    rcases hf : goParseFloat r with _ | n
    · dsimp only
      split_ifs <;> rfl
    · rfl
  · rfl

theorem parseValue_default_raw (raw : Str) (l col : ℕ)
    (hne : raw ≠ [])
    (hallowed : ∀ c ∈ raw, (!(c == ';' || c == '\x7d')) = true)
    (htr : trimSpace raw = raw)
    (hnws : isWhitespaceB (peekC (⟨raw, l, col⟩ : PSt)) = false)
    (hnu : ¬(4 < raw.length ∧ raw.take 4 = ("url(").toList))
    (hnev : ¬(5 < raw.length ∧ raw.take 5 = ("eval(").toList))
    (hnr : ¬(4 < raw.length ∧ raw.take 4 = ("rgb(").toList))
    (hnra : ¬(5 < raw.length ∧ raw.take 5 = ("rgba(").toList))
    (hnh : ¬(peekC (⟨raw, l, col⟩ : PSt) = '#')) :
    parseValue ⟨raw, l, col⟩ =
      .ok (determineValueType raw, advN ⟨raw, l, col⟩ raw.length) := by
  have hsw : skipWhitespace ⟨raw, l, col⟩ = ⟨raw, l, col⟩ := skipWhitespace_id _ hnws
  have htw : raw.takeWhile (fun c => !(c == ';' || c == '\x7d')) = raw :=
    List.takeWhile_eq_self_iff.mpr hallowed
  unfold parseValue
  rw [hsw]
  dsimp only
  rw [if_neg hne, if_neg hnu, if_neg hnev, if_neg hnr, if_neg hnra, if_neg hnh, htw, htr]

set_option maxRecDepth 2000 in
/-- C7, counterexample: the `set layer=solid` directive stores a Value
with raw text `solid` and Type `vString`, but re-parsing `solid` as a
declaration value yields Type `vKeyword`. -/
theorem value_reparse_counterexample :
    (match ParseMapCSS 5 (("way \x7b set layer=solid; \x7d").toList) with
     | some (.ok ss) => some (ss.rules.map (fun r : Rule =>
         r.declarations.map (fun d : Declaration => (d.property, d.value))))
     | _ => none) =
      some [[((("set-tag:layer").toList),
        ({ raw := ("solid").toList, typ := .vString } : Value))]] ∧
    (match parseValue ⟨("solid").toList, 1, 1⟩ with
     | .ok (v, _) => some v.typ
     | .error _ => none) = some ValueType.vKeyword ∧
    ValueType.vString ≠ ValueType.vKeyword :=
  ⟨by decide, by decide, by decide⟩

/-- C7 (amended: values synthesized by the `set` directive are excluded,
the Raw text must be non-empty, and the value text must not start with a
character on which the parser's whitespace set and `strings.TrimSpace`
disagree — vertical tab / form feed): re-parsing the Raw text of any
Value produced by `parseValue` succeeds and yields a Value of the same
Type. -/
theorem parseValue_raw_type_idempotent (st : PSt) (v : Value) (st' : PSt)
    (h : parseValue st = .ok (v, st'))
    (hraw : v.raw ≠ [])
    (hws : goIsSpace (peekC (skipWhitespace st)) = false) :
    ∃ v' st'', parseValue ⟨v.raw, 1, 1⟩ = .ok (v', st'') ∧ v'.typ = v.typ := by
  unfold parseValue at h
  dsimp only at h
  split_ifs at h with h1 h2 h3 h4 h5 h6
  · -- empty input: raw would be empty
    simp only [Except.ok.injEq, Prod.mk.injEq] at h
    rw [← h.1] at hraw
    exact absurd rfl hraw
  · -- url( branch
    unfold parseURLValue at h
    dsimp only at h
    rcases hP : parseUntilClosingParen (advRaw (skipWhitespace st) 4) with ⟨C, st2⟩
    rw [hP] at h
    dsimp only at h
    simp only [Except.ok.injEq, Prod.mk.injEq] at h
    rw [← h.1]
    dsimp only
    exact ⟨_, _, parseValue_url_raw C 1 1, parseURLValue_typ _⟩
  · -- eval( branch
    unfold parseEvalValue at h
    dsimp only at h
    rcases hP : parseUntilClosingParen (advRaw (skipWhitespace st) 5) with ⟨C, st2⟩
    rw [hP] at h
    dsimp only at h
    simp only [Except.ok.injEq, Prod.mk.injEq] at h
    rw [← h.1]
    dsimp only
    exact ⟨_, _, parseValue_eval_raw C 1 1, parseEvalValue_typ _⟩
  · -- rgb( branch
    unfold parseRGBColor at h
    dsimp only at h
    rcases hP : parseUntilClosingParen (advRaw (skipWhitespace st) 4) with ⟨C, st2⟩
    rw [hP] at h
    dsimp only at h
    split_ifs at h with hp
    have hlen3 : (C.splitOn ',').length = 3 := not_not.mp hp
    have hC : (parenScan ((advRaw (skipWhitespace st) 4) : PSt).rest 1).1 = C := by
      unfold parseUntilClosingParen at hP
      rcases hq : parenScan ((advRaw (skipWhitespace st) 4) : PSt).rest 1 with ⟨o, k⟩
      rw [hq] at hP
      dsimp only at hP
      simp only [Prod.mk.injEq] at hP
      exact hP.1
    obtain ⟨d', hd⟩ := parenScan_scanDepth ((advRaw (skipWhitespace st) 4) : PSt).rest 1
    rw [hC] at hd
    simp only [Except.ok.injEq, Prod.mk.injEq] at h
    rw [← h.1]
    dsimp only
    obtain ⟨v', st'', he, ht⟩ := parseValue_rgb_raw C 1 1 d' hd hlen3
    exact ⟨v', st'', he, ht⟩
  · -- rgba( branch
    unfold parseRGBAColor at h
    dsimp only at h
    rcases hP : parseUntilClosingParen (advRaw (skipWhitespace st) 5) with ⟨C, st2⟩
    rw [hP] at h
    dsimp only at h
    split_ifs at h with hp
    have hlen4 : (C.splitOn ',').length = 4 := not_not.mp hp
    have hC : (parenScan ((advRaw (skipWhitespace st) 5) : PSt).rest 1).1 = C := by
      unfold parseUntilClosingParen at hP
      rcases hq : parenScan ((advRaw (skipWhitespace st) 5) : PSt).rest 1 with ⟨o, k⟩
      rw [hq] at hP
      dsimp only at hP
      simp only [Prod.mk.injEq] at hP
      exact hP.1
    obtain ⟨d', hd⟩ := parenScan_scanDepth ((advRaw (skipWhitespace st) 5) : PSt).rest 1
    rw [hC] at hd
    simp only [Except.ok.injEq, Prod.mk.injEq] at h
    rw [← h.1]
    dsimp only
    obtain ⟨v', st'', he, ht⟩ := parseValue_rgba_raw C 1 1 d' hd hlen4
    exact ⟨v', st'', he, ht⟩
  · -- hex branch
    unfold parseHexColor at h
    rw [if_neg (not_not_intro h6)] at h
    dsimp only at h
    rcases hv : parseHexColorValue
        ('#' :: (advance (skipWhitespace st)).rest.takeWhile isHexDigitB) with e | c0
    · rw [hv] at h
      simp at h
    · rw [hv] at h
      simp only [Except.ok.injEq, Prod.mk.injEq] at h
      rw [← h.1]
      dsimp only
      exact parseValue_hex_raw _ 1 1 c0 (takeWhile_self_idem _ _) hv
  · -- default branch
    set t0 : Str := (skipWhitespace st).rest.takeWhile
        (fun c => !(c == ';' || c == '\x7d')) with ht0def
    simp only [Except.ok.injEq, Prod.mk.injEq] at h
    have hvraw : v.raw = trimSpace t0 := by
      rw [← h.1]
      exact determineValueType_raw _
    have hne0 : trimSpace t0 ≠ [] := by rw [← hvraw]; exact hraw
    have ht00 : t0 ≠ [] := by
      intro h0
      rw [h0] at hne0
      exact hne0 rfl
    rcases hcs : (skipWhitespace st).rest with _ | ⟨c, cs⟩
    · exact absurd hcs h1
    · have hpk : peekC (skipWhitespace st) = c := by
        unfold peekC
        rw [hcs]
        rfl
      have hgood : goIsSpace c = false := by rw [← hpk]; exact hws
      have hpredc : (!(c == ';' || c == '\x7d')) = true := by
        by_contra hq
        apply ht00
        rw [ht0def, hcs]
        exact List.takeWhile_cons_of_neg hq
      have ht0c : t0 = c :: cs.takeWhile (fun c => !(c == ';' || c == '\x7d')) := by
        rw [ht0def, hcs]
        exact List.takeWhile_cons_of_pos hpredc
      have htl : trimLeftSpace t0 = t0 := by
        rw [ht0c]
        exact List.dropWhile_cons_of_neg (by simp [hgood])
      have hprefix : trimSpace t0 <+: t0 := by
        unfold trimSpace
        rw [htl]
        exact trimRightSpace_prefix t0
      have hprefix_rest : trimSpace t0 <+: (skipWhitespace st).rest := by
        refine hprefix.trans ?_
        rw [ht0def]
        exact List.takeWhile_prefix _
      have hrh : (trimSpace t0).headD (Char.ofNat 0) = c := by
        obtain ⟨r1, hr1⟩ := hprefix
        rcases hq : trimSpace t0 with _ | ⟨rh, rtl⟩
        · exact absurd hq hne0
        · rw [hq, ht0c] at hr1
          simp only [List.cons_append, List.cons.injEq] at hr1
          simp [hr1.1]
      have hnws : isWhitespaceB (peekC (⟨trimSpace t0, 1, 1⟩ : PSt)) = false := by
        have hpk2 : peekC (⟨trimSpace t0, 1, 1⟩ : PSt) = c := hrh
        rw [hpk2]
        cases hbc : isWhitespaceB c
        · rfl
        · exact absurd (isWhitespaceB_goIsSpace c hbc) (by simp [hgood])
      obtain ⟨r1, hr1⟩ := hprefix_rest
      have hnu : ¬(4 < (trimSpace t0).length ∧
          (trimSpace t0).take 4 = ("url(").toList) := by
        rintro ⟨hl, ht⟩
        apply h2
        constructor
        · rw [← hr1, List.length_append]; omega
        · have hz : 4 - (trimSpace t0).length = 0 := by omega
          rw [← hr1, List.take_append_eq_append_take, hz]
          simp [ht]
      have hnev : ¬(5 < (trimSpace t0).length ∧
          (trimSpace t0).take 5 = ("eval(").toList) := by
        rintro ⟨hl, ht⟩
        apply h3
        constructor
        · rw [← hr1, List.length_append]; omega
        · have hz : 5 - (trimSpace t0).length = 0 := by omega
          rw [← hr1, List.take_append_eq_append_take, hz]
          simp [ht]
      have hnr : ¬(4 < (trimSpace t0).length ∧
          (trimSpace t0).take 4 = ("rgb(").toList) := by
        rintro ⟨hl, ht⟩
        apply h4
        constructor
        · rw [← hr1, List.length_append]; omega
        · have hz : 4 - (trimSpace t0).length = 0 := by omega
          rw [← hr1, List.take_append_eq_append_take, hz]
          simp [ht]
      have hnra : ¬(5 < (trimSpace t0).length ∧
          (trimSpace t0).take 5 = ("rgba(").toList) := by
        rintro ⟨hl, ht⟩
        apply h5
        constructor
        · rw [← hr1, List.length_append]; omega
        · have hz : 5 - (trimSpace t0).length = 0 := by omega
          rw [← hr1, List.take_append_eq_append_take, hz]
          simp [ht]
      have hnh : ¬(peekC (⟨trimSpace t0, 1, 1⟩ : PSt) = '#') := by
        have hpk2 : peekC (⟨trimSpace t0, 1, 1⟩ : PSt) = c := hrh
        rw [hpk2]
        intro hc
        exact h6 (by rw [hpk, hc])
      have hallowed : ∀ ch ∈ trimSpace t0, (!(ch == ';' || ch == '\x7d')) = true := by
        intro ch hch
        have hmem : ch ∈ t0 := hprefix.subset hch
        rw [ht0def] at hmem
        simpa using List.mem_takeWhile_imp hmem
      have hfinal := parseValue_default_raw (trimSpace t0) 1 1 hne0 hallowed
        (trimSpace_idem t0) hnws hnu hnev hnr hnra hnh
      refine ⟨determineValueType (trimSpace t0),
        advN ⟨trimSpace t0, 1, 1⟩ (trimSpace t0).length, ?_, ?_⟩
      · rw [hvraw]
        exact hfinal
      · rw [← h.1]

/-- C7, witness: the keyword value parsed from `solid` re-parses to the
same type. -/
theorem parseValue_raw_type_idempotent_witness :
    parseValue ⟨("solid").toList, 1, 1⟩ =
      .ok ({ raw := ("solid").toList, typ := .vKeyword }, ⟨[], 1, 6⟩) ∧
    ({ raw := ("solid").toList, typ := .vKeyword } : Value).raw ≠ [] ∧
    goIsSpace (peekC (skipWhitespace ⟨("solid").toList, 1, 1⟩)) = false ∧
    (∃ v' st'',
      parseValue ⟨({ raw := ("solid").toList, typ := .vKeyword } : Value).raw, 1, 1⟩ =
        .ok (v', st'') ∧
      v'.typ = ({ raw := ("solid").toList, typ := .vKeyword } : Value).typ) :=
  ⟨rfl, by decide, by decide,
   parseValue_raw_type_idempotent ⟨("solid").toList, 1, 1⟩
     { raw := ("solid").toList, typ := .vKeyword } ⟨[], 1, 6⟩ rfl (by decide) (by decide)⟩

end GoOverpass
